import Mathlib

/-!
# Verification of the SmartCatalog core against its specification

Shallow embedding of the two core engines of the SmartCatalog repository:

* `src/smartcatalog/matcher/excel_matcher.py` — the tolerance-aware fuzzy
  matching engine (`match_word_items_to_excel_catalog` and its helpers);
* `src/smartcatalog/loader/extract_item.py` — the geometric layout extractor
  (`_extract_item_code_from_page`, `_cluster_positions`,
  `_extract_item_author`, `extract_items_from_page`).

Modelling conventions:

* Python floats are modelled by `ℚ` (exact rational arithmetic);
* Python strings are modelled by `List Char`; character classes
  (`isdigit`, `isalpha`, `\w`, `\s`, `lower`, `upper`) are modelled on the
  ASCII range as in the catalogs the code processes, with the diameter sign
  `ø` additionally treated as a word character (as the Python `re` module
  does for Unicode letters);
* `difflib.SequenceMatcher.ratio` is modelled by the Ratcliff–Obershelp
  algorithm difflib implements (recursively summing longest matching blocks),
  without the `autojunk` popularity heuristic (which difflib only activates
  for strings of length ≥ 200);
* fixed regular expressions of the source are modelled by direct scanners
  with Python `re` semantics (leftmost non-overlapping matches, ordered
  alternation, greedy quantifiers);
* Python's stable `list.sort` is modelled by `List.insertionSort` with a
  non-strict "key-better-or-equal" relation, which is stable in the same way.
-/

namespace SmartCatalog

/-! ## Character and string utilities -/

/-- Python `\s` (ASCII range): space, tab, newline, carriage return,
form feed, vertical tab. -/
def isSpaceChar (c : Char) : Bool :=
  c == ' ' || c == '\t' || c == '\n' || c == '\r' || c == '\x0b' || c == '\x0c'

/-- Python `\w` (ASCII range, plus the diameter sign `ø` which is a Unicode
letter and hence a word character for Python's `re`). -/
def isWordChar (c : Char) : Bool :=
  c.isAlphanum || c == '_' || c == 'ø'

/-- ASCII lower-casing of a string (Python `str.lower` on the ASCII range). -/
def toLowerStr (l : List Char) : List Char := l.map Char.toLower

/-- ASCII upper-casing of a string (Python `str.upper` on the ASCII range). -/
def toUpperStr (l : List Char) : List Char := l.map Char.toUpper

/-- Python `str.strip()`: remove leading and trailing whitespace. -/
def stripWS (l : List Char) : List Char :=
  ((l.dropWhile isSpaceChar).reverse.dropWhile isSpaceChar).reverse

/-- Python `str.split()` with no arguments: split on whitespace runs,
discarding empty pieces. -/
def splitWS (l : List Char) : List (List Char) :=
  (l.splitOnP isSpaceChar).filter (fun w => w ≠ [])

/-- `startsWithSeq pat l` : does `l` start with `pat`? -/
def startsWithSeq : List Char → List Char → Bool
  | [], _ => true
  | _ :: _, [] => false
  | p :: ps, c :: cs => p == c && startsWithSeq ps cs

/-- Python substring test `pat in l`. -/
def containsSeq (pat : List Char) : (l : List Char) → Bool
  | [] => startsWithSeq pat []
  | c :: rest => startsWithSeq pat (c :: rest) || containsSeq pat rest

/-- Character of `l` at index `i`, with a non-word default for out-of-range
access (used only for boundary tests at the edges). -/
def charAt (l : List Char) (i : Nat) : Char := l.getD i '\x00'

/-- Python `re` word boundary `\b` at position `p` of `t` (between
characters `p-1` and `p`). -/
def isBoundary (t : List Char) (p : Nat) : Bool :=
  let before := decide (0 < p) && isWordChar (charAt t (p - 1))
  let after := decide (p < t.length) && isWordChar (charAt t p)
  before != after

/-- Digits of a decimal literal to a natural number. -/
def digitsToNat (ds : List Char) : Nat :=
  ds.foldl (fun acc c => acc * 10 + (c.toNat - 48)) 0

/-- Python `max` over a non-empty list of rationals (`[]` never occurs at
call sites; it is mapped to `0`). -/
def maxNE : List ℚ → ℚ
  | [] => 0
  | x :: xs => xs.foldl max x

/-- Python `min` over a non-empty list of rationals (`[]` never occurs at
call sites; it is mapped to `0`). -/
def minNE : List ℚ → ℚ
  | [] => 0
  | x :: xs => xs.foldl min x

/-! ## difflib.SequenceMatcher

`SequenceMatcher(None, a, b).ratio()` returns `2*M/(len a + len b)` where
`M` is the total size of the matching blocks found by recursively taking
the longest matching block (earliest in `a`, then earliest in `b`) and
recursing on the pieces to its left and to its right. -/

/-- Length of the longest common prefix of two character lists. -/
def commonPrefixLen : List Char → List Char → Nat
  | a :: as_, b :: bs => if a == b then commonPrefixLen as_ bs + 1 else 0
  | _, _ => 0

/-- Length of the matching block of `a` and `b` starting at positions
`i`, `j`. -/
def blockLenAt (a b : List Char) (i j : Nat) : Nat :=
  commonPrefixLen (a.drop i) (b.drop j)

/-- `find_longest_match` over the whole strings: the triple `(i, j, k)`
with maximal `k = blockLenAt a b i j`, ties resolved to the smallest `i`,
then the smallest `j` (difflib's tie-breaking). `(0, 0, 0)` when there is
no match. -/
def bestBlock (a b : List Char) : Nat × Nat × Nat :=
  (List.range a.length).foldl
    (fun acc i =>
      (List.range b.length).foldl
        (fun acc2 j =>
          let k := blockLenAt a b i j
          if acc2.2.2 < k then (i, j, k) else acc2)
        acc)
    (0, 0, 0)

/-- Total size of the matching blocks (`get_matching_blocks`), fuelled.
Each recursive call strictly decreases the length of the first argument,
so fuel `a.length + 1` never runs out. -/
def matchTotalF : Nat → List Char → List Char → Nat
  | 0, _, _ => 0
  | fuel + 1, a, b =>
    let t := bestBlock a b
    if t.2.2 = 0 then 0
    else
      matchTotalF fuel (a.take t.1) (b.take t.2.1) + t.2.2 +
        matchTotalF fuel (a.drop (t.1 + t.2.2)) (b.drop (t.2.1 + t.2.2))

/-- Total number of matched characters between `a` and `b`. -/
def matchTotal (a b : List Char) : Nat := matchTotalF (a.length + 1) a b

/-- `difflib.SequenceMatcher(None, a, b).ratio()`; `_calculate_ratio`
returns `1.0` when both strings are empty. -/
def smRatio (a b : List Char) : ℚ :=
  if a.length + b.length = 0 then 1
  else (2 * matchTotal a b : ℚ) / (a.length + b.length : ℚ)

/-! ## excel_matcher.py — data model -/

/-- One reference row of the Excel catalog, as produced by
`catalog_df_to_record_list` (all text columns passed through
`to_str_safe`). `qty` is never used by filtering or scoring. -/
structure CatalogRow where
  code : String
  brand : String
  type : String
  shape : String
  dimensions : String
  category : String
deriving DecidableEq

/-- A Word-extracted query item (`ItemInfo` coerced to a dict by
`iteminfo_to_dict`); only the keys read by the matcher are modelled.
`none` is Python `None`. -/
structure QueryItem where
  brand : Option String := none
  shape : Option String := none
  type : Option String := none
  itemType : Option String := none
  code : Option String := none
  itemCode : Option String := none
  length_mm : Option ℚ := none
  length_op : Option String := none
  width_mm : Option ℚ := none
  width_op : Option String := none
  height_mm : Option ℚ := none
  height_op : Option String := none
  height_min_mm : Option ℚ := none
  height_max_mm : Option ℚ := none
  diameter_mm : Option ℚ := none
  diameter_op : Option String := none
  capacity_ml : Option ℚ := none
  capacity_min_ml : Option ℚ := none
  capacity_max_ml : Option ℚ := none
deriving DecidableEq

/-- `to_str_safe` on an optional string field (`None → ""`). -/
def strD (s : Option String) : String := s.getD ""

/-- Python truthiness of an optional string (`None` and `""` are falsy). -/
def strTruthy (s : Option String) : Bool := (strD s) ≠ ""

/-- Python `a or b` on strings: `a` if non-empty, else `b`. -/
def strOr (a b : String) : String := if a ≠ "" then a else b

/-! ## excel_matcher.py — tokenisation and token scoring -/

/-- `tokenize_simple`: lower-case, split on runs of characters outside
`[a-z0-9\-\+]`, drop empties. -/
def tokenizeSimple (s : List Char) : List (List Char) :=
  ((toLowerStr s).splitOnP
      (fun c => !(decide ('a' ≤ c) && decide (c ≤ 'z') || c.isDigit ||
        c == '-' || c == '+'))).filter (fun t => t ≠ [])

/-- `best_token_match_ratio`: 1.0 for a literal substring, else the best
`SequenceMatcher` ratio against any single word of the blob. -/
def bestTokenMatchRatio (token blob : List Char) : ℚ :=
  if token = [] ∨ blob = [] then 0
  else if containsSeq token blob then 1
  else
    let words := splitWS blob
    if words = [] then 0
    else maxNE (words.map (fun w => smRatio token w))

/-- `average_token_match_ratio`: mean over the tokens of the per-token
score (1.0 for a substring, else best per-word ratio). -/
def averageTokenMatchRatio (tokens : List (List Char)) (blob : List Char) : ℚ :=
  if tokens = [] ∨ blob = [] then 0
  else
    let words := splitWS blob
    if words = [] then 0
    else
      (tokens.map (fun t =>
        if containsSeq t blob then (1 : ℚ)
        else maxNE (words.map (fun w => smRatio t w)))).sum / tokens.length

/-! ## excel_matcher.py — dimension parsing

Scanners with the semantics of `re.finditer` over the fixed patterns of the
source: leftmost non-overlapping matches, greedy quantifiers, ordered
alternation (so the unit alternation `(mm|cm|m|ml|l)` can never produce
`"ml"`: the branch `m` matches first). -/

/-- Read `\d+(?:\.\d+)?` at the head of `l` (the head is a digit at every
call site); returns the value and the unconsumed suffix. -/
def readNumber (l : List Char) : ℚ × List Char :=
  let ds := l.takeWhile Char.isDigit
  let r1 := l.dropWhile Char.isDigit
  match r1 with
  | '.' :: r2 =>
    let fs := r2.takeWhile Char.isDigit
    if fs = [] then ((digitsToNat ds : ℚ), r1)
    else ((digitsToNat ds : ℚ) + (digitsToNat fs : ℚ) / (10 : ℚ) ^ fs.length,
          r2.dropWhile Char.isDigit)
  | _ => ((digitsToNat ds : ℚ), r1)

/-- Ordered alternation of literal units: first unit that is a prefix of
`l` wins; returns it and the unconsumed suffix. -/
def tryUnits : List (List Char) → List Char → Option (List Char × List Char)
  | [], _ => none
  | u :: rest, l =>
    if startsWithSeq u l then some (u, l.drop u.length) else tryUnits rest l

/-- The unit alternation `(mm|cm|m|ml|l)` in source order. -/
def numberUnits : List (List Char) :=
  [['m', 'm'], ['c', 'm'], ['m'], ['m', 'l'], ['l']]

/-- The diameter-pattern unit alternation `(mm|cm|m)` in source order. -/
def diaUnits : List (List Char) := [['m', 'm'], ['c', 'm'], ['m']]

/-- `re.finditer(r"(\d+(?:\.\d+)?)\s*(mm|cm|m|ml|l)?", lower)`: the singles
scanner, fuelled (every step consumes at least one character, so fuel
`l.length + 1` never runs out). -/
def scanNumbersF : Nat → List Char → List (ℚ × List Char)
  | 0, _ => []
  | _, [] => []
  | fuel + 1, c :: rest =>
    if c.isDigit then
      let p := readNumber (c :: rest)
      let r3 := p.2.dropWhile isSpaceChar
      match tryUnits numberUnits r3 with
      | some ur => (p.1, ur.1) :: scanNumbersF fuel ur.2
      | none => (p.1, []) :: scanNumbersF fuel r3
    else scanNumbersF fuel rest

/-- All `(value, unit)` singles of a lower-cased dimensions text. -/
def scanNumbers (l : List Char) : List (ℚ × List Char) :=
  scanNumbersF (l.length + 1) l

/-- `re.finditer(r"(\d+(?:\.\d+)?)\s*-\s*(\d+(?:\.\d+)?)\s*(mm|cm|m|ml|l)?", lower)`:
the ranges scanner, fuelled. -/
def scanRangesF : Nat → List Char → List ((ℚ × ℚ) × List Char)
  | 0, _ => []
  | _, [] => []
  | fuel + 1, c :: rest =>
    if c.isDigit then
      let p := readNumber (c :: rest)
      match p.2.dropWhile isSpaceChar with
      | '-' :: r2 =>
        let r3 := r2.dropWhile isSpaceChar
        if (charAt r3 0).isDigit ∧ r3 ≠ [] then
          let q := readNumber r3
          let r4 := q.2.dropWhile isSpaceChar
          match tryUnits numberUnits r4 with
          | some ur => ((p.1, q.1), ur.1) :: scanRangesF fuel ur.2
          | none => ((p.1, q.1), []) :: scanRangesF fuel r4
        else scanRangesF fuel rest
      | _ => scanRangesF fuel rest
    else scanRangesF fuel rest

/-- All `((a, b), unit)` ranges of a lower-cased dimensions text. -/
def scanRanges (l : List Char) : List ((ℚ × ℚ) × List Char) :=
  scanRangesF (l.length + 1) l

/-- The diameter marker `(?:\b(?:ø|phi)\s*|\bdiam(?:eter)?[:\s]*)` at
position `i` of `l`: returns the suffix after the marker (including its
trailing `\s*` / `[:\s]*`), or `none`. -/
def tryDiaMarker (l : List Char) (i : Nat) : Option (List Char) :=
  let s := l.drop i
  if isBoundary l i then
    if startsWithSeq ['ø'] s then some ((s.drop 1).dropWhile isSpaceChar)
    else if startsWithSeq ['p', 'h', 'i'] s then
      some ((s.drop 3).dropWhile isSpaceChar)
    else if startsWithSeq ['d', 'i', 'a', 'm'] s then
      let s2 := s.drop 4
      let s3 := if startsWithSeq ['e', 't', 'e', 'r'] s2 then s2.drop 4 else s2
      some (s3.dropWhile (fun c => c == ':' || isSpaceChar c))
    else none
  else none

/-- One attempted match of `DIA_SINGLE_RX` at position `i`: marker, `\s*`,
number, `\s*`, optional unit `(mm|cm|m)`. Returns the value, the unit and
the position after the match. -/
def tryDiaSingleAt (l : List Char) (i : Nat) : Option (ℚ × List Char × Nat) :=
  match tryDiaMarker l i with
  | none => none
  | some s1 =>
    let s2 := s1.dropWhile isSpaceChar
    if (charAt s2 0).isDigit ∧ s2 ≠ [] then
      let p := readNumber s2
      let r2 := p.2.dropWhile isSpaceChar
      match tryUnits diaUnits r2 with
      | some ur => some (p.1, ur.1, l.length - ur.2.length)
      | none => some (p.1, [], l.length - r2.length)
    else none

/-- One attempted match of `DIA_RANGE_RX` at position `i`: marker, `\s*`,
number, `\s*`, `-`, `\s*`, number, `\s*`, optional unit `(mm|cm|m)`. -/
def tryDiaRangeAt (l : List Char) (i : Nat) : Option ((ℚ × ℚ) × List Char × Nat) :=
  match tryDiaMarker l i with
  | none => none
  | some s1 =>
    let s2 := s1.dropWhile isSpaceChar
    if (charAt s2 0).isDigit ∧ s2 ≠ [] then
      let p := readNumber s2
      match p.2.dropWhile isSpaceChar with
      | '-' :: r2 =>
        let r3 := r2.dropWhile isSpaceChar
        if (charAt r3 0).isDigit ∧ r3 ≠ [] then
          let q := readNumber r3
          let r4 := q.2.dropWhile isSpaceChar
          match tryUnits diaUnits r4 with
          | some ur => some ((p.1, q.1), ur.1, l.length - ur.2.length)
          | none => some ((p.1, q.1), [], l.length - r4.length)
        else none
      | _ => none
    else none

/-- `DIA_SINGLE_RX.finditer`, fuelled position scan. -/
def scanDiaSinglesF (l : List Char) : Nat → Nat → List (ℚ × List Char)
  | 0, _ => []
  | fuel + 1, i =>
    if i < l.length then
      match tryDiaSingleAt l i with
      | some r => (r.1, r.2.1) :: scanDiaSinglesF l fuel (max r.2.2 (i + 1))
      | none => scanDiaSinglesF l fuel (i + 1)
    else []

/-- All diameter-tagged `(value, unit)` singles. -/
def scanDiaSingles (l : List Char) : List (ℚ × List Char) :=
  scanDiaSinglesF l (l.length + 1) 0

/-- `DIA_RANGE_RX.finditer`, fuelled position scan. -/
def scanDiaRangesF (l : List Char) : Nat → Nat → List ((ℚ × ℚ) × List Char)
  | 0, _ => []
  | fuel + 1, i =>
    if i < l.length then
      match tryDiaRangeAt l i with
      | some r => (r.1, r.2.1) :: scanDiaRangesF l fuel (max r.2.2 (i + 1))
      | none => scanDiaRangesF l fuel (i + 1)
    else []

/-- All diameter-tagged `((a, b), unit)` ranges. -/
def scanDiaRanges (l : List Char) : List ((ℚ × ℚ) × List Char) :=
  scanDiaRangesF l (l.length + 1) 0

/-- Output of `parse_dimensions_with_units`. -/
structure ParsedDims where
  numbers : List (ℚ × List Char)
  ranges : List ((ℚ × ℚ) × List Char)
  diaNumbers : List (ℚ × List Char)
  diaRanges : List ((ℚ × ℚ) × List Char)
deriving DecidableEq

/-- `parse_dimensions_with_units(text)`: lower-case the text and run the
four scanners. -/
def parseDimensionsWithUnits (text : String) : ParsedDims :=
  let lower := toLowerStr text.toList
  { numbers := scanNumbers lower
    ranges := scanRanges lower
    diaNumbers := scanDiaSingles lower
    diaRanges := scanDiaRanges lower }

/-- `convert_unit_value(val, unit, target)`: canonical-unit conversion;
unrecognised units yield `none`. -/
def convertUnitValue (v : ℚ) (unit : List Char) (target : List Char) : Option ℚ :=
  let u := toLowerStr unit
  if target = ['m', 'm'] then
    if u = [] ∨ u = ['m', 'm'] then some v
    else if u = ['c', 'm'] then some (v * 10)
    else if u = ['m'] then some (v * 1000)
    else none
  else if target = ['m', 'l'] then
    if u = [] ∨ u = ['m', 'l'] then some v
    else if u = ['l'] then some (v * 1000)
    else none
  else none

/-! ## excel_matcher.py — strict filter helpers -/

/-- NFD decomposition followed by removal of combining marks, modelled for
the Latin letters with diacritics that occur in the catalogs (the identity
on every other character). -/
def stripDiacritic (c : Char) : Char :=
  if c ∈ ['á', 'à', 'â', 'ä', 'ã', 'å'] then 'a'
  else if c ∈ ['é', 'è', 'ê', 'ë'] then 'e'
  else if c ∈ ['í', 'ì', 'î', 'ï'] then 'i'
  else if c ∈ ['ó', 'ò', 'ô', 'ö', 'õ'] then 'o'
  else if c ∈ ['ú', 'ù', 'û', 'ü'] then 'u'
  else if c ∈ ['ç'] then 'c'
  else if c ∈ ['ñ'] then 'n'
  else if c ∈ ['ý', 'ÿ'] then 'y'
  else if c ∈ ['Á', 'À', 'Â', 'Ä', 'Ã', 'Å'] then 'A'
  else if c ∈ ['É', 'È', 'Ê', 'Ë'] then 'E'
  else if c ∈ ['Í', 'Ì', 'Î', 'Ï'] then 'I'
  else if c ∈ ['Ó', 'Ò', 'Ô', 'Ö', 'Õ'] then 'O'
  else if c ∈ ['Ú', 'Ù', 'Û', 'Ü'] then 'U'
  else if c ∈ ['Ç'] then 'C'
  else if c ∈ ['Ñ'] then 'N'
  else if c ∈ ['Ý'] then 'Y'
  else c

/-- `normalize_brand_key`: strip accents, lower-case, keep only
`[a-z0-9]`. -/
def normalizeBrandKey (s : String) : List Char :=
  ((s.toList.map stripDiacritic).map Char.toLower).filter
    (fun c => (decide ('a' ≤ c) && decide (c ≤ 'z')) || c.isDigit)

/-- `TOLERANCE_PCT`: the fixed ±5% dimension tolerance. -/
def TOL : ℚ := 5 / 100

/-- The `eps = 1e-6` slack of the filter helpers. -/
def EPS : ℚ := 1 / 1000000

/-- `value_matches_singles_or_ranges`: `v` matches a single within ±5%, or
falls inside a range expanded by ±5% on both ends. -/
def valueMatchesSinglesOrRanges (v : ℚ) (singles : List ℚ)
    (ranges : List (ℚ × ℚ)) : Bool :=
  singles.any (fun x => decide (|x - v| ≤ TOL * max v (max x 1) + EPS)) ||
  ranges.any (fun r =>
    decide (r.1 * (1 - TOL) - EPS ≤ v) && decide (v ≤ r.2 * (1 + TOL) + EPS))

/-- `range_fully_contained`: the (sorted) query range is contained in some
reference range expanded by ±5%. -/
def rangeFullyContained (lo hi : ℚ) (ranges : List (ℚ × ℚ)) : Bool :=
  let lo' := min lo hi
  let hi' := max lo hi
  ranges.any (fun r =>
    decide (r.1 * (1 - TOL) - EPS ≤ lo') && decide (hi' ≤ r.2 * (1 + TOL) + EPS))

/-- `satisfies_dimension_constraint`: apply the relational operator with 5%
tolerance; `None` and unknown operators fall back to `'='`. -/
def satisfiesDimensionConstraint (v : ℚ) (op : Option String)
    (singles : List ℚ) (ranges : List (ℚ × ℚ)) : Bool :=
  let opn := stripWS (strD op).toList
  if opn = ['='] ∨ opn = ['=', '='] then
    valueMatchesSinglesOrRanges v singles ranges
  else if opn = ['>', '='] then
    let thresh := v * (1 - TOL)
    singles.any (fun x => decide (thresh - EPS ≤ x)) ||
      ranges.any (fun r => decide (thresh - EPS ≤ r.2))
  else if opn = ['<', '='] then
    let thresh := v * (1 + TOL)
    singles.any (fun x => decide (x ≤ thresh + EPS)) ||
      ranges.any (fun r => decide (r.1 ≤ thresh + EPS))
  else if opn = ['>'] then
    let thresh := v * (1 - TOL)
    singles.any (fun x => decide (thresh + EPS < x)) ||
      ranges.any (fun r => decide (thresh + EPS < r.2))
  else if opn = ['<'] then
    let thresh := v * (1 + TOL)
    singles.any (fun x => decide (x < thresh - EPS)) ||
      ranges.any (fun r => decide (r.1 < thresh - EPS))
  else valueMatchesSinglesOrRanges v singles ranges

/-- The per-row parsed `DimensionSet`s built by
`match_word_items_to_excel_catalog` (with the diameter fallback to the
generic mm sets). -/
structure RowDims where
  mmSingles : List ℚ
  mmRanges : List (ℚ × ℚ)
  mlSingles : List ℚ
  mlRanges : List (ℚ × ℚ)
  diaSingles : List ℚ
  diaRanges : List (ℚ × ℚ)
deriving DecidableEq

/-- The mm/ml/diameter singles and ranges a parsed dimensions text
converts to (`match_word_items_to_excel_catalog`, dimension-filter
preamble): each single is converted to mm and to ml (keeping the
successes), each range is sorted then converted endpoint-wise, and the
diameter sets fall back to the generic mm sets when no diameter-tagged
value survives conversion. -/
def buildRowDimsOf (parsed : ParsedDims) : RowDims :=
  let mmSingles := parsed.numbers.filterMap
    (fun p => convertUnitValue p.1 p.2 ['m', 'm'])
  let mlSingles := parsed.numbers.filterMap
    (fun p => convertUnitValue p.1 p.2 ['m', 'l'])
  let mmRanges := parsed.ranges.filterMap (fun p =>
    match convertUnitValue (min p.1.1 p.1.2) p.2 ['m', 'm'],
        convertUnitValue (max p.1.1 p.1.2) p.2 ['m', 'm'] with
    | some lo, some hi => some (lo, hi)
    | _, _ => none)
  let mlRanges := parsed.ranges.filterMap (fun p =>
    match convertUnitValue (min p.1.1 p.1.2) p.2 ['m', 'l'],
        convertUnitValue (max p.1.1 p.1.2) p.2 ['m', 'l'] with
    | some lo, some hi => some (lo, hi)
    | _, _ => none)
  let diaSingles := parsed.diaNumbers.filterMap
    (fun p => convertUnitValue p.1 p.2 ['m', 'm'])
  let diaRanges := parsed.diaRanges.filterMap (fun p =>
    match convertUnitValue (min p.1.1 p.1.2) p.2 ['m', 'm'],
        convertUnitValue (max p.1.1 p.1.2) p.2 ['m', 'm'] with
    | some lo, some hi => some (lo, hi)
    | _, _ => none)
  { mmSingles := mmSingles
    mmRanges := mmRanges
    mlSingles := mlSingles
    mlRanges := mlRanges
    diaSingles := if diaSingles ≠ [] then diaSingles else mmSingles
    diaRanges := if diaRanges ≠ [] then diaRanges else mmRanges }

/-- Parse a row's dimensions text and build its `RowDims`. -/
def buildRowDims (dimensions : String) : RowDims :=
  buildRowDimsOf (parseDimensionsWithUnits dimensions)

/-- `row_satisfies_required_dimensions`: the strict dimension constraints
with 5% tolerance (early `return False` modelled by conjunction). -/
def rowSatisfiesRequiredDimensions (item : QueryItem) (dims : RowDims) : Bool :=
  (match item.length_mm with
   | some v => satisfiesDimensionConstraint v item.length_op
       dims.mmSingles dims.mmRanges
   | none => true) &&
  (match item.width_mm with
   | some v => satisfiesDimensionConstraint v item.width_op
       dims.mmSingles dims.mmRanges
   | none => true) &&
  (match item.height_min_mm, item.height_max_mm with
   | some lo, some hi =>
     rangeFullyContained lo hi dims.mmRanges ||
       (valueMatchesSinglesOrRanges lo dims.mmSingles dims.mmRanges &&
        valueMatchesSinglesOrRanges hi dims.mmSingles dims.mmRanges)
   | _, _ =>
     match item.height_mm with
     | some v => satisfiesDimensionConstraint v item.height_op
         dims.mmSingles dims.mmRanges
     | none => true) &&
  (match item.diameter_mm with
   | some v => satisfiesDimensionConstraint v item.diameter_op
       dims.diaSingles dims.diaRanges
   | none => true) &&
  (match item.capacity_min_ml, item.capacity_max_ml with
   | some lo, some hi =>
     rangeFullyContained lo hi dims.mlRanges ||
       (valueMatchesSinglesOrRanges lo dims.mlSingles dims.mlRanges &&
        valueMatchesSinglesOrRanges hi dims.mlSingles dims.mlRanges)
   | _, _ =>
     match item.capacity_ml with
     | some v => valueMatchesSinglesOrRanges v dims.mlSingles dims.mlRanges
     | none => true)

/-! ## excel_matcher.py — scoring engine -/

/-- `proximity_decay_score`: linear decay from 1 to 0 with distance to the
nearest single, tolerance window `max(1, 5% of max(1, v))`. -/
def proximityDecayScore (v : ℚ) (xs : List ℚ) : ℚ :=
  match xs with
  | [] => 0
  | x :: rest =>
    let nearest := minNE ((x :: rest).map (fun y => |y - v|))
    let delta := max 1 (TOL * max 1 v)
    max 0 (1 - nearest / delta)

/-- Distance from a point to the interval `[a, b]`. -/
def dToInterval (x a b : ℚ) : ℚ :=
  if x < a then a - x else if b < x then x - b else 0

/-- `range_overlap_or_edge_score`: `max(best IoU, edge-proximity)` of the
query range against the reference ranges and singles; 1.0 as soon as a
single falls inside the query range. -/
def rangeOverlapOrEdgeScore (target : ℚ × ℚ) (ranges : List (ℚ × ℚ))
    (singles : List ℚ) : ℚ :=
  let lo := min target.1 target.2
  let hi := max target.1 target.2
  if singles.any (fun x => decide (lo ≤ x) && decide (x ≤ hi)) then 1
  else
    let bestIou := ranges.foldl
      (fun acc r =>
        let inter := max 0 (min hi r.2 - max lo r.1)
        let uni := max hi r.2 - min lo r.1
        let iou := if 0 < uni then inter / uni else 0
        max acc iou) 0
    let candidates :=
      singles ++ ranges.foldl (fun acc r => acc ++ [r.1, r.2]) []
    if candidates = [] then bestIou
    else
      let nearest := minNE (candidates.map (fun x => dToInterval x lo hi))
      let delta := max 1 (TOL * max 1 (hi - lo))
      max bestIou (max 0 (1 - nearest / delta))

/-- The field weights (`weights` dict of
`match_word_items_to_excel_catalog`). -/
structure Weights where
  brand : ℚ
  shape : ℚ
  type : ℚ
  code : ℚ
  length : ℚ
  height : ℚ
  diameter : ℚ
  capacity : ℚ

/-- The default weights of the source. -/
def defaultWeights : Weights :=
  { brand := 2, shape := 7 / 5, type := 2, code := 5 / 2,
    length := 8 / 5, height := 8 / 5, diameter := 8 / 5, capacity := 8 / 5 }

/-- Output of `extract_item_search_features`. -/
structure SearchFeatures where
  brandTokens : List (List Char)
  shapeTokens : List (List Char)
  typeTokens : List (List Char)
  code : List Char
  length_mm : Option ℚ
  width_mm : Option ℚ
  height_mm : Option ℚ
  diameter_mm : Option ℚ
  capacity_ml : Option ℚ
  height_min_mm : Option ℚ
  height_max_mm : Option ℚ
  capacity_min_ml : Option ℚ
  capacity_max_ml : Option ℚ

/-- `extract_item_search_features`: tokens and numeric targets used during
scoring. -/
def extractItemSearchFeatures (item : QueryItem) : SearchFeatures :=
  { brandTokens := tokenizeSimple (strD item.brand).toList
    shapeTokens := tokenizeSimple (strD item.shape).toList
    typeTokens := tokenizeSimple
      (strOr (strD item.type) (strD item.itemType)).toList
    code := (strOr (strD item.code) (strD item.itemCode)).toList
    length_mm := item.length_mm
    width_mm := item.width_mm
    height_mm := item.height_mm
    diameter_mm := item.diameter_mm
    capacity_ml := item.capacity_ml
    height_min_mm := item.height_min_mm
    height_max_mm := item.height_max_mm
    capacity_min_ml := item.capacity_min_ml
    capacity_max_ml := item.capacity_max_ml }

/-- `1.0 if any(abs(x - v) < 1e-6 for x in xs) else 0.0`. -/
def exactHit (v : ℚ) (xs : List ℚ) : ℚ :=
  if xs.any (fun x => decide (|x - v| < EPS)) then 1 else 0

/-- The mm singles used by the scoring engine (generic numbers converted
to mm). -/
def scoringMmSingles (parsed : ParsedDims) : List ℚ :=
  parsed.numbers.filterMap (fun p => convertUnitValue p.1 p.2 ['m', 'm'])

/-- The ml singles used by the scoring engine. -/
def scoringMlSingles (parsed : ParsedDims) : List ℚ :=
  parsed.numbers.filterMap (fun p => convertUnitValue p.1 p.2 ['m', 'l'])

/-- The mm ranges used by the scoring engine (endpoints sorted then
converted). -/
def scoringMmRanges (parsed : ParsedDims) : List (ℚ × ℚ) :=
  parsed.ranges.filterMap (fun p =>
    match convertUnitValue (min p.1.1 p.1.2) p.2 ['m', 'm'],
        convertUnitValue (max p.1.1 p.1.2) p.2 ['m', 'm'] with
    | some lo, some hi => some (lo, hi)
    | _, _ => none)

/-- The ml ranges built inside the capacity-range branch of the scoring
engine. -/
def scoringMlRanges (parsed : ParsedDims) : List (ℚ × ℚ) :=
  parsed.ranges.filterMap (fun p =>
    match convertUnitValue (min p.1.1 p.1.2) p.2 ['m', 'l'],
        convertUnitValue (max p.1.1 p.1.2) p.2 ['m', 'l'] with
    | some lo, some hi => some (lo, hi)
    | _, _ => none)

/-- The `(weight, field_score)` contributions accumulated by
`score_catalog_row_against_item`, in source order: a field contributes
exactly when it is present on the query (the corresponding `if` guard of
the source), with the field score the source computes. -/
def fieldContribs (row : CatalogRow) (f : SearchFeatures) (w : Weights) :
    List (ℚ × ℚ) :=
  let blobBrand := toLowerStr (row.brand ++ " " ++ row.type).toList
  let blobDesc := toLowerStr
    (row.code ++ " " ++ row.brand ++ " " ++ row.type ++ " " ++
      row.dimensions).toList
  let parsed := parseDimensionsWithUnits row.dimensions
  let mmSingles := scoringMmSingles parsed
  let mlSingles := scoringMlSingles parsed
  let mmRanges := scoringMmRanges parsed
  (if f.brandTokens ≠ [] then
    [(w.brand, averageTokenMatchRatio f.brandTokens blobBrand)] else []) ++
  (if f.shapeTokens ≠ [] then
    [(w.shape, averageTokenMatchRatio f.shapeTokens blobDesc)] else []) ++
  (if f.typeTokens ≠ [] then
    [(w.type, averageTokenMatchRatio f.typeTokens blobDesc)] else []) ++
  (if f.code ≠ [] then
    [(w.code, bestTokenMatchRatio (toLowerStr f.code) blobDesc)] else []) ++
  (match f.length_mm with
   | some v =>
     [(w.length, max (exactHit v mmSingles) (proximityDecayScore v mmSingles))]
   | none => []) ++
  (match f.height_min_mm, f.height_max_mm with
   | some hmin, some hmax =>
     [(w.height, rangeOverlapOrEdgeScore (hmin, hmax) mmRanges mmSingles)]
   | _, _ =>
     match f.height_mm with
     | some v =>
       [(w.height,
         max (exactHit v mmSingles) (proximityDecayScore v mmSingles))]
     | none => []) ++
  (match f.diameter_mm with
   | some v =>
     [(w.diameter,
       max (exactHit v mmSingles) (proximityDecayScore v mmSingles))]
   | none => []) ++
  (match f.capacity_min_ml, f.capacity_max_ml with
   | some cmin, some cmax =>
     [(w.capacity,
       rangeOverlapOrEdgeScore (cmin, cmax) (scoringMlRanges parsed)
         mlSingles)]
   | _, _ =>
     match f.capacity_ml with
     | some v =>
       [(w.capacity,
         max (exactHit v mlSingles) (proximityDecayScore v mlSingles))]
     | none => [])

/-- `score_catalog_row_against_item`: weighted sum of the accumulated
contributions over the accumulated weights; `0.0` when the normaliser is
`≤ 1e-9`. -/
def scoreCatalogRowAgainstItem (row : CatalogRow) (f : SearchFeatures)
    (w : Weights) : ℚ :=
  let contribs := fieldContribs row f w
  let maxScore := (contribs.map (fun p => p.1)).sum
  if maxScore ≤ 1 / 1000000000 then 0
  else (contribs.map (fun p => p.1 * p.2)).sum / maxScore

/-! ## excel_matcher.py — orchestrator -/

/-- A scored candidate `(row, index, score)`. -/
def ScoredRow : Type := CatalogRow × Nat × ℚ

/-- The descending-by-score ordering used to sort candidates
(`scored.sort(key=lambda x: x[2], reverse=True)`, a stable sort). -/
def scoreGE (a b : ScoredRow) : Prop := b.2.2 ≤ a.2.2

instance : DecidableRel scoreGE :=
  fun a b => inferInstanceAs (Decidable (b.2.2 ≤ a.2.2))

instance : IsTotal ScoredRow scoreGE := ⟨fun a b => le_total b.2.2 a.2.2⟩

instance : IsTrans ScoredRow scoreGE := ⟨fun _ _ _ h h2 => le_trans h2 h⟩

/-- Does the item carry any of the nine dimension keys that switch the
dimension filter on? -/
def hasDimensionKey (item : QueryItem) : Bool :=
  item.length_mm.isSome || item.width_mm.isSome || item.height_mm.isSome ||
  item.height_min_mm.isSome || item.height_max_mm.isSome ||
  item.diameter_mm.isSome || item.capacity_ml.isSome ||
  item.capacity_min_ml.isSome || item.capacity_max_ml.isSome

/-- The strict candidate filtering of `match_word_items_to_excel_catalog`:
the brand filter (when the item has a truthy brand), then the dimension
filter (when the item has any dimension key). -/
def candidatesOf (item : QueryItem) (records : List (Nat × CatalogRow)) :
    List (Nat × CatalogRow) :=
  let c1 :=
    if strTruthy item.brand then
      records.filter (fun p =>
        normalizeBrandKey p.2.brand = normalizeBrandKey (strD item.brand))
    else records
  if hasDimensionKey item then
    c1.filter (fun p =>
      rowSatisfiesRequiredDimensions item (buildRowDims p.2.dimensions))
  else c1

/-- One match result of `match_word_items_to_excel_catalog`. -/
structure MatchResult where
  item : QueryItem
  bestMatch : Option CatalogRow
  bestIndex : Option Nat
  score : ℚ
  alternatives : List ScoredRow

/-- The body of the per-item loop of `match_word_items_to_excel_catalog`:
filter, score the survivors, sort descending by score (stable), and take
the top `topK` as alternatives. -/
def matchOneItem (item : QueryItem) (records : List (Nat × CatalogRow))
    (topK : Nat) (w : Weights) : MatchResult :=
  let feats := extractItemSearchFeatures item
  let scored : List ScoredRow := (candidatesOf item records).map
    (fun p => (p.2, p.1, scoreCatalogRowAgainstItem p.2 feats w))
  let sortedScored := scored.insertionSort scoreGE
  match sortedScored with
  | [] =>
    { item := item, bestMatch := none, bestIndex := none, score := 0,
      alternatives := [] }
  | top :: _ =>
    { item := item, bestMatch := some top.1, bestIndex := some top.2.1,
      score := top.2.2, alternatives := sortedScored.take topK }

/-- `match_word_items_to_excel_catalog` over a list of items. -/
def matchWordItemsToExcelCatalog (items : List QueryItem)
    (records : List (Nat × CatalogRow)) (topK : Nat) (w : Weights) :
    List MatchResult :=
  items.map (fun item => matchOneItem item records topK w)

/-! ## extract_item.py — text normalisation -/

/-- `_HYPHEN_MAP`: normalise hyphen variants (hyphen, non-breaking hyphen,
figure dash, en dash, minus sign) to `-`. -/
def hyphenMapChar (c : Char) : Char :=
  if c ∈ ['‐', '‑', '‒', '–', '−'] then '-' else c

/-- `re.sub(r"\s*-\s*", "-", s)`: delete every whitespace run adjacent to a
hyphen, fuelled (every recursive call strictly shortens the list, so fuel
`l.length + 1` never runs out). -/
def squashHyphenWSF : Nat → List Char → List Char
  | 0, l => l
  | _, [] => []
  | fuel + 1, c :: rest =>
    if c == '-' then '-' :: squashHyphenWSF fuel (rest.dropWhile isSpaceChar)
    else if isSpaceChar c &&
        ((rest.dropWhile isSpaceChar).headD '\x00' == '-') then
      squashHyphenWSF fuel (rest.dropWhile isSpaceChar)
    else c :: squashHyphenWSF fuel rest

/-- `re.sub(r"\s*-\s*", "-", s)`. -/
def squashHyphenWS (l : List Char) : List Char :=
  squashHyphenWSF (l.length + 1) l

/-- `_norm_text`: strip, normalise hyphen variants, squash whitespace
around hyphens. -/
def normText (l : List Char) : List Char :=
  squashHyphenWS ((stripWS l).map hyphenMapChar)

/-! ## extract_item.py — code anchors -/

/-- An axis-aligned bounding box `(x0, y0, x1, y1)`. -/
structure Box where
  x0 : ℚ
  y0 : ℚ
  x1 : ℚ
  y1 : ℚ
deriving DecidableEq

/-- Componentwise union of a box with a list of further boxes
(`min` of the mins, `max` of the maxes). -/
def unionBoxes (b : Box) (bs : List Box) : Box :=
  bs.foldl
    (fun acc c =>
      { x0 := min acc.x0 c.x0, y0 := min acc.y0 c.y0,
        x1 := max acc.x1 c.x1, y1 := max acc.y1 c.y1 }) b

/-- One page word as returned by `page.get_text("words")`:
`(x0, y0, x1, y1, text, …)`. -/
structure PWord where
  x0 : ℚ
  y0 : ℚ
  x1 : ℚ
  y1 : ℚ
  text : List Char
deriving DecidableEq

/-- The bounding box of a word. -/
def PWord.box (w : PWord) : Box := ⟨w.x0, w.y0, w.x1, w.y1⟩

/-- Does the 9-character code pattern `\d{2}-\d{3}-\d{2}` (with `\b` word
boundaries on both sides, `_CODE_INLINE_RE`) match at position `i`
of `l`? -/
def isCodeAt (l : List Char) (i : Nat) : Bool :=
  decide (i + 9 ≤ l.length) &&
  isBoundary l i &&
  (charAt l i).isDigit && (charAt l (i + 1)).isDigit &&
  charAt l (i + 2) == '-' &&
  (charAt l (i + 3)).isDigit && (charAt l (i + 4)).isDigit &&
  (charAt l (i + 5)).isDigit &&
  charAt l (i + 6) == '-' &&
  (charAt l (i + 7)).isDigit && (charAt l (i + 8)).isDigit &&
  isBoundary l (i + 9)

/-- `_CODE_INLINE_RE.finditer`: start positions of the leftmost
non-overlapping matches, fuelled position scan. -/
def codeMatchesF (l : List Char) : Nat → Nat → List Nat
  | 0, _ => []
  | fuel + 1, i =>
    if i + 9 ≤ l.length then
      if isCodeAt l i then i :: codeMatchesF l fuel (i + 9)
      else codeMatchesF l fuel (i + 1)
    else []

/-- Start positions of all matches of the code pattern in `l`. -/
def codeMatches (l : List Char) : List Nat := codeMatchesF l (l.length + 1) 0

/-- `_looks_like_author`'s full-match test
(`_CODE_INLINE_RE.fullmatch(txt)`). -/
def isCodeText (l : List Char) : Bool := l.length == 9 && isCodeAt l 0

/-- The per-line state built by the concatenation loop of
`_extract_item_code_from_page`: accumulated pieces, character map
`(start, end, bbox)` per word, cursor, and the right edge of the previous
word. -/
structure LineState where
  pieces : List Char
  charMap : List (Nat × Nat × Box)
  cursor : Nat
  prevX1 : Option ℚ

/-- One step of the concatenation loop: insert a synthetic space when the
horizontal gap to the previous word exceeds 1.5 layout units, then append
the word's normalised text and record its character span. -/
def buildLineStep (st : LineState) (w : PWord) : LineState :=
  let txtn := normText w.text
  let gap : Bool :=
    match st.prevX1 with
    | some px => decide (px + 3 / 2 < w.x0)
    | none => false
  let cursor1 := if gap then st.cursor + 1 else st.cursor
  { pieces := st.pieces ++ (if gap then [' '] else []) ++ txtn
    charMap := st.charMap ++ [(cursor1, cursor1 + txtn.length, w.box)]
    cursor := cursor1 + txtn.length
    prevX1 := some w.x1 }

/-- The ascending-by-`x0` ordering used to sort a line's words
(`line_words.sort(key=lambda w: w[0])`, a stable sort). -/
def xLE (a b : PWord) : Prop := a.x0 ≤ b.x0

instance : DecidableRel xLE := fun a b => inferInstanceAs (Decidable (a.x0 ≤ b.x0))

instance : IsTotal PWord xLE := ⟨fun a b => le_total a.x0 b.x0⟩

instance : IsTrans PWord xLE := ⟨fun _ _ _ h h2 => le_trans h h2⟩

/-- Concatenate a line's words (already sorted left-to-right) into the
joined text and character map. -/
def buildLine (ws : List PWord) : LineState :=
  ws.foldl buildLineStep
    { pieces := [], charMap := [], cursor := 0, prevX1 := none }

/-- The `hit_boxes` loop: boxes of the character-map entries overlapping
the match span `[ms, me)` (`continue` on `e <= ms`, `break` on
`s >= me`). -/
def hitBoxes : List (Nat × Nat × Box) → Nat → Nat → List Box
  | [], _, _ => []
  | (s, e, bb) :: rest, ms, me =>
    if e ≤ ms then hitBoxes rest ms me
    else if me ≤ s then []
    else bb :: hitBoxes rest ms me

/-- A detected code anchor. -/
structure CodeAnchor where
  code : List Char
  bbox : Box
deriving DecidableEq

/-- The per-line body of `_extract_item_code_from_page`: sort the words by
`x0` (stable), concatenate with gap-aware synthetic spaces, normalise the
joined text, find all code-pattern matches, and map each match back to the
union of the boxes its character span hits (skipping a match whose
`hit_boxes` is empty). -/
def anchorsOfLine (lineWords : List PWord) : List CodeAnchor :=
  let st := buildLine (lineWords.insertionSort xLE)
  let lineText := normText st.pieces
  (codeMatches lineText).filterMap (fun i =>
    match hitBoxes st.charMap i (i + 9) with
    | [] => none
    | b :: bs =>
      some { code := (lineText.drop i).take 9, bbox := unionBoxes b bs })

/-- Python `round(x, 1)` (modelled with round-half-up; the source only
uses it to build dedup keys). -/
def roundTo1 (q : ℚ) : ℚ := (round (q * 10) : ℚ) / 10

/-- The dedup key of an anchor: `(code, bbox rounded to 0.1)`. -/
def anchorKey (a : CodeAnchor) : List Char × ℚ × ℚ × ℚ × ℚ :=
  (a.code, roundTo1 a.bbox.x0, roundTo1 a.bbox.y0, roundTo1 a.bbox.x1,
   roundTo1 a.bbox.y1)

/-- Python-dict upsert: replace the value of an existing key in place,
else append. -/
def upsertAnchor (acc : List ((List Char × ℚ × ℚ × ℚ × ℚ) × CodeAnchor))
    (a : CodeAnchor) : List ((List Char × ℚ × ℚ × ℚ × ℚ) × CodeAnchor) :=
  if acc.any (fun p => p.1 = anchorKey a) then
    acc.map (fun p => if p.1 = anchorKey a then (p.1, a) else p)
  else acc ++ [(anchorKey a, a)]

/-- The `uniq` dict dedup of `_extract_item_code_from_page`: keys keep
first-insertion order, values are the last anchor seen per key. -/
def dedupAnchors (as_ : List CodeAnchor) : List CodeAnchor :=
  (as_.foldl upsertAnchor []).map (fun p => p.2)

/-- `_extract_item_code_from_page` over a page given as its physical lines
(the grouping by `(block_no, line_no)` of the word tuples): per-line
anchors, then the page-level dedup. -/
def extractItemCodesFromPage (lines : List (List PWord)) : List CodeAnchor :=
  dedupAnchors (lines.foldl (fun acc lw => acc ++ anchorsOfLine lw) [])

/-! ## extract_item.py — grid clustering -/

/-- The chaining loop of `_cluster_positions` over the already-sorted
values: start a new cluster when the next value is farther than `tol` from
the last value added to the current cluster. Clusters are returned in
order, each as the list of its members. -/
def clusterChain (tol : ℚ) : List ℚ → ℚ → List ℚ → List (List ℚ)
  | [], _, cur => [cur.reverse]
  | x :: xs, last, cur =>
    if |x - last| ≤ tol then clusterChain tol xs x (x :: cur)
    else cur.reverse :: clusterChain tol xs x [x]

/-- `_cluster_positions(vals, tol)`: sort, chain into clusters, return the
mean of each cluster. -/
def clusterPositions (vals : List ℚ) (tol : ℚ) : List ℚ :=
  match vals.insertionSort (· ≤ ·) with
  | [] => []
  | v :: vs => (clusterChain tol vs v [v]).map
      (fun c => c.sum / (c.length : ℚ))

/-- The boundary construction of `extract_items_from_page`: page edge,
midpoints of adjacent centers, page edge. -/
def gridBounds (lo hi : ℚ) (centers : List ℚ) : List ℚ :=
  lo :: (List.zipWith (fun a b => (a + b) / 2) centers centers.tail ++ [hi])

/-- `_nearest_index(val, centers)`:
`min(range(len(centers)), key=lambda i: abs(val - centers[i]))` — the
first index minimising the distance. -/
def nearestIndex (x : ℚ) (centers : List ℚ) : Nat :=
  match centers with
  | [] => 0
  | c :: cs =>
    (((cs.enumFrom 1).foldl
      (fun best p => if |x - p.2| < best.2 then (p.1, |x - p.2|) else best)
      (0, |x - c|)) : Nat × ℚ).1

/-- Center of a box along x. -/
def xCenter (b : Box) : ℚ := (b.x0 + b.x1) / 2

/-- Center of a box along y. -/
def yCenter (b : Box) : ℚ := (b.y0 + b.y1) / 2

/-- The page grid computed by `extract_items_from_page` from the anchors of
a page: column/row cluster centers (sorted), the derived boundaries, and
the per-anchor cell assignment by nearest center. -/
structure PageGrid where
  colCenters : List ℚ
  rowCenters : List ℚ
  xBounds : List ℚ
  yBounds : List ℚ

/-- Build the grid of a page: cluster anchor x-centers (tolerance 60) and
y-centers (tolerance 25), sort the centers, and extend midpoint boundaries
to the page edges. -/
def buildPageGrid (anchors : List CodeAnchor) (pageX0 pageY0 pageX1 pageY1 : ℚ) :
    PageGrid :=
  let xs := anchors.map (fun a => xCenter a.bbox)
  let ys := anchors.map (fun a => yCenter a.bbox)
  let colCenters := (clusterPositions xs 60).insertionSort (· ≤ ·)
  let rowCenters := (clusterPositions ys 25).insertionSort (· ≤ ·)
  { colCenters := colCenters
    rowCenters := rowCenters
    xBounds := gridBounds pageX0 pageX1 colCenters
    yBounds := gridBounds pageY0 pageY1 rowCenters }

/-- The `(row, col)` cell of an anchor: nearest row center and nearest
column center to the anchor's bbox center. -/
def anchorCell (g : PageGrid) (a : CodeAnchor) : Nat × Nat :=
  (nearestIndex (yCenter a.bbox) g.rowCenters,
   nearestIndex (xCenter a.bbox) g.colCenters)

/-! ## extract_item.py — author extraction -/

/-- One text span of `page.get_text("dict")` after `_collect_spans`. -/
structure Span where
  text : List Char
  x0 : ℚ
  y0 : ℚ
  x1 : ℚ
  y1 : ℚ
  size : ℚ
deriving DecidableEq

/-- The bounding box of a span. -/
def Span.box (s : Span) : Box := ⟨s.x0, s.y0, s.x1, s.y1⟩

/-- `_looks_like_measurement`: unit substrings, digit + unit-with-boundary
pattern, or digits without letters. -/
def looksLikeMeasurement (txt : List Char) : Bool :=
  let t := toLowerStr txt
  if [['c', 'm'], ['m', 'm'], ['m', 'l'], ['v'], ['ø'], ['"'],
      ['i', 'n', 'c', 'h']].any (fun u => containsSeq u t) then true
  else if t.any Char.isDigit &&
      (List.range (t.length + 1)).any (fun i =>
        [['c', 'm'], ['m', 'm'], ['ø'], ['"'], ['i', 'n', 'c', 'h']].any
          (fun u => startsWithSeq u (t.drop i) && isBoundary t (i + u.length)))
    then true
  else
    decide (0 < (txt.filter Char.isDigit).length) &&
      decide ((txt.filter Char.isAlpha).length = 0)

/-- `_looks_like_author`: non-empty, not a bare code, not URL-like, not a
measurement, not a short page-number-like digit string. -/
def looksLikeAuthor (txt : List Char) : Bool :=
  txt ≠ [] &&
  !isCodeText txt &&
  !containsSeq ['W', 'W', 'W', '.'] (toUpperStr txt) &&
  !containsSeq ['H', 'T', 'T', 'P'] (toUpperStr txt) &&
  !looksLikeMeasurement txt &&
  !(stripWS txt ≠ [] && (stripWS txt).all Char.isDigit &&
    decide ((stripWS txt).length ≤ 4))

/-- `_x_overlap(a, b, tol)`: horizontal overlap with tolerance. -/
def xOverlap (a b : Box) (tol : ℚ) : Bool :=
  !(decide (a.x1 < b.x0 - tol) || decide (b.x1 < a.x0 - tol))

/-- The windowed-search score of a candidate author span:
`size*2 + (0.8 if >80% uppercase letters) - 0.10*max(0, vertical gap)`. -/
def authorSpanScore (s : Span) (txt : List Char) (codeY0 : ℚ) : ℚ :=
  let dy := max 0 (codeY0 - s.y1)
  let letters := txt.filter Char.isAlpha
  let ratio : ℚ := ((letters.filter Char.isUpper).length : ℚ) /
    (max 1 letters.length : ℚ)
  let bonus : ℚ := if 4 / 5 < ratio then 4 / 5 else 0
  s.size * 2 + bonus - dy * (1 / 10)

/-- The windowed candidates (`near`) of `_extract_item_author`: author-like
text, bottom edge within `[code_y0 - 55, code_y0 + 6]`, and x-overlap with
the code bbox within 6 units; paired with their scores. -/
def nearCandidates (cellSpans : List Span) (codeBox : Box) : List (ℚ × Span) :=
  cellSpans.filterMap (fun s =>
    let txt := stripWS s.text
    if !looksLikeAuthor txt then none
    else if codeBox.y0 + 6 < s.y1 then none
    else if s.y1 < codeBox.y0 - 55 then none
    else if !xOverlap s.box codeBox 6 then none
    else some (authorSpanScore s txt codeBox.y0, s))

/-- The descending-by-score ordering of the windowed candidates
(`near.sort(key=lambda t: t[0], reverse=True)`, a stable sort). -/
def nearGE (a b : ℚ × Span) : Prop := b.1 ≤ a.1

instance : DecidableRel nearGE := fun a b => inferInstanceAs (Decidable (b.1 ≤ a.1))

instance : IsTotal (ℚ × Span) nearGE := ⟨fun a b => le_total b.1 a.1⟩

instance : IsTrans (ℚ × Span) nearGE := ⟨fun _ _ _ h h2 => le_trans h2 h⟩

/-- The fallback ordering of `_extract_item_author`
(`candidates.sort(key=lambda s: (-size, -y0))`): descending font size,
then descending top edge (i.e. lower on the page first). -/
def fallbackLE (a b : Span) : Prop :=
  b.size < a.size ∨ (b.size = a.size ∧ b.y0 ≤ a.y0)

instance : DecidableRel fallbackLE := fun a b =>
  inferInstanceAs (Decidable (b.size < a.size ∨ (b.size = a.size ∧ b.y0 ≤ a.y0)))

instance : IsTotal Span fallbackLE := ⟨fun a b => by
  rcases lt_trichotomy b.size a.size with h | h | h
  · exact Or.inl (Or.inl h)
  · rcases le_total b.y0 a.y0 with h2 | h2
    · exact Or.inl (Or.inr ⟨h, h2⟩)
    · exact Or.inr (Or.inr ⟨h.symm, h2⟩)
  · exact Or.inr (Or.inl h)⟩

instance : IsTrans Span fallbackLE := ⟨fun a b c h h2 => by
  rcases h with h | ⟨he, hy⟩
  · rcases h2 with h2 | ⟨h2e, _⟩
    · exact Or.inl (h2.trans h)
    · exact Or.inl (h2e ▸ h)
  · rcases h2 with h2 | ⟨h2e, h2y⟩
    · exact Or.inl (he ▸ h2)
    · exact Or.inr ⟨h2e.trans he, h2y.trans hy⟩⟩

/-- The ascending-by-`x0` ordering used to join a same-line author
(`same_line.sort(key=lambda s: s["bbox"][0])`, a stable sort). -/
def spanXLE (a b : Span) : Prop := a.x0 ≤ b.x0

instance : DecidableRel spanXLE := fun a b =>
  inferInstanceAs (Decidable (a.x0 ≤ b.x0))

instance : IsTotal Span spanXLE := ⟨fun a b => le_total a.x0 b.x0⟩

instance : IsTrans Span spanXLE := ⟨fun _ _ _ h h2 => le_trans h h2⟩

/-- `re.sub(r"\s+", " ", s)`: collapse whitespace runs to single spaces,
fuelled. -/
def collapseWSF : Nat → List Char → List Char
  | 0, l => l
  | _, [] => []
  | fuel + 1, c :: rest =>
    if isSpaceChar c then ' ' :: collapseWSF fuel (rest.dropWhile isSpaceChar)
    else c :: collapseWSF fuel rest

/-- Collapse whitespace runs to single spaces. -/
def collapseWS (l : List Char) : List Char := collapseWSF (l.length + 1) l

/-- Join strings with single spaces (Python `" ".join`). -/
def joinWithSpace : List (List Char) → List Char
  | [] => []
  | [t] => t
  | t :: rest => t ++ ' ' :: joinWithSpace rest

/-- `_extract_item_author`: windowed search above the code anchor; on
success pick the best-scored line and join the spans on it left-to-right;
otherwise fall back to the largest-font author-like span whose bottom edge
is at most 2 units below the anchor's vertical center. -/
def extractItemAuthor (cellSpans : List Span) (codeBox : Box) : List Char :=
  let near := nearCandidates cellSpans codeBox
  match near with
  | [] =>
    let cy := yCenter codeBox
    let candidates := cellSpans.filter (fun s =>
      decide (s.y1 ≤ cy + 2) && looksLikeAuthor (stripWS s.text))
    match candidates.insertionSort fallbackLE with
    | [] => []
    | c :: _ => stripWS c.text
  | _ :: _ =>
    let sortedNear := near.insertionSort nearGE
    match sortedNear with
    | [] => []
    | best :: _ =>
      let bestY0 := best.2.y0
      let sameLine := (sortedNear.filter
        (fun p => decide (|p.2.y0 - bestY0| ≤ 3))).map (fun p => p.2)
      let joined := joinWithSpace
        ((sameLine.insertionSort spanXLE).map (fun s => stripWS s.text))
      stripWS (collapseWS (stripWS joined))

/-! ## Spec-side definitions used to state the claims -/

/-- The boxes of the words whose character span overlaps the match span
`[ms, me)` — the "words the match's character span touches" of the
specification, as a plain overlap filter. -/
def touchedBoxes (charMap : List (Nat × Nat × Box)) (ms me : Nat) : List Box :=
  (charMap.filter (fun t => decide (ms < t.2.1) && decide (t.1 < me))).map
    (fun t => t.2.2)

/-- The componentwise union of the touched boxes (degenerate zero box when
nothing is touched; the theorems show this case never occurs). -/
def touchedUnion (charMap : List (Nat × Nat × Box)) (ms me : Nat) : Box :=
  match touchedBoxes charMap ms me with
  | [] => ⟨0, 0, 0, 0⟩
  | b :: bs => unionBoxes b bs

/-- A `RowDims` with every singles/ranges list empty (a dimensions text
with no parseable numeric data). -/
def emptyRowDims : RowDims :=
  { mmSingles := [], mmRanges := [], mlSingles := [], mlRanges := [],
    diaSingles := [], diaRanges := [] }

/-- The query carries at least one complete dimension constraint: a value
with its (optional) operator, or a full `(min, max)` range. A lone range
endpoint is not a complete constraint (the row check skips it). -/
def hasCompleteDimConstraint (item : QueryItem) : Bool :=
  item.length_mm.isSome || item.width_mm.isSome ||
  (item.height_min_mm.isSome && item.height_max_mm.isSome) ||
  item.height_mm.isSome || item.diameter_mm.isSome ||
  (item.capacity_min_ml.isSome && item.capacity_max_ml.isSome) ||
  item.capacity_ml.isSome

/-- The diameter-tagged singles of a parsed dimensions text after mm
conversion (before the fallback). -/
def diaTaggedSingles (parsed : ParsedDims) : List ℚ :=
  parsed.diaNumbers.filterMap (fun p => convertUnitValue p.1 p.2 ['m', 'm'])

/-- The diameter-tagged ranges of a parsed dimensions text after mm
conversion (before the fallback). -/
def diaTaggedRanges (parsed : ParsedDims) : List (ℚ × ℚ) :=
  parsed.diaRanges.filterMap (fun p =>
    match convertUnitValue (min p.1.1 p.1.2) p.2 ['m', 'm'],
        convertUnitValue (max p.1.1 p.1.2) p.2 ['m', 'm'] with
    | some lo, some hi => some (lo, hi)
    | _, _ => none)

/-- A query item carrying only a diameter constraint. -/
def diaOnlyItem (v : ℚ) (op : Option String) : QueryItem :=
  { diameter_mm := some v, diameter_op := op }

/-- The "no match" result for an item. -/
def emptyMatchResult (item : QueryItem) : MatchResult :=
  { item := item, bestMatch := none, bestIndex := none, score := 0,
    alternatives := [] }

/-- Descending-by-score with equal scores in ascending original catalog
index: the stable-ranking order of the specification. -/
def stableDesc (a b : ScoredRow) : Prop :=
  b.2.2 < a.2.2 ∨ (a.2.2 = b.2.2 ∧ a.2.1 < b.2.1)

/-! ## Bound lemmas: SequenceMatcher ratio and token scores -/

theorem le_foldl_max (init : ℚ) (l : List ℚ) : init ≤ l.foldl max init := by
  induction l generalizing init with
  | nil => exact le_refl _
  | cons x xs ih => exact le_trans (le_max_left init x) (ih (max init x))

theorem foldl_max_le {c : ℚ} (init : ℚ) (l : List ℚ) (h0 : init ≤ c)
    (h : ∀ x ∈ l, x ≤ c) : l.foldl max init ≤ c := by
  induction l generalizing init with
  | nil => exact h0
  | cons x xs ih =>
    exact ih (max init x) (max_le h0 (h x (by simp)))
      (fun y hy => h y (by simp [hy]))

theorem maxNE_nonneg {l : List ℚ} (h : ∀ x ∈ l, 0 ≤ x) : 0 ≤ maxNE l := by
  cases l with
  | nil => simp [maxNE]
  | cons x xs => exact le_trans (h x (by simp)) (le_foldl_max x xs)

theorem maxNE_le_one {l : List ℚ} (h : ∀ x ∈ l, x ≤ 1) : maxNE l ≤ 1 := by
  cases l with
  | nil => simp [maxNE]
  | cons x xs =>
    exact foldl_max_le x xs (h x (by simp)) (fun y hy => h y (by simp [hy]))

theorem foldl_min_le (init : ℚ) (l : List ℚ) : l.foldl min init ≤ init := by
  induction l generalizing init with
  | nil => exact le_refl _
  | cons x xs ih => exact le_trans (ih (min init x)) (min_le_left init x)

theorem le_foldl_min {c : ℚ} (init : ℚ) (l : List ℚ) (h0 : c ≤ init)
    (h : ∀ x ∈ l, c ≤ x) : c ≤ l.foldl min init := by
  induction l generalizing init with
  | nil => exact h0
  | cons x xs ih =>
    exact ih (min init x) (le_min h0 (h x (by simp)))
      (fun y hy => h y (by simp [hy]))

theorem minNE_nonneg {l : List ℚ} (h : ∀ x ∈ l, 0 ≤ x) : 0 ≤ minNE l := by
  cases l with
  | nil => simp [minNE]
  | cons x xs =>
    exact le_foldl_min x xs (h x (by simp)) (fun y hy => h y (by simp [hy]))

theorem commonPrefixLen_le_left (a b : List Char) :
    commonPrefixLen a b ≤ a.length := by
  induction a generalizing b with
  | nil => cases b <;> simp [commonPrefixLen]
  | cons x xs ih =>
    cases b with
    | nil => simp [commonPrefixLen]
    | cons y ys =>
      by_cases h : x == y
      · simpa [commonPrefixLen, h] using ih ys
      · simp [commonPrefixLen, h]

theorem commonPrefixLen_le_right (a b : List Char) :
    commonPrefixLen a b ≤ b.length := by
  induction a generalizing b with
  | nil => cases b <;> simp [commonPrefixLen]
  | cons x xs ih =>
    cases b with
    | nil => simp [commonPrefixLen]
    | cons y ys =>
      by_cases h : x == y
      · simpa [commonPrefixLen, h] using ih ys
      · simp [commonPrefixLen, h]

theorem blockLenAt_bounds (a b : List Char) (i j : Nat) :
    i + blockLenAt a b i j ≤ max i a.length ∧
      j + blockLenAt a b i j ≤ max j b.length := by
  constructor
  · have h := commonPrefixLen_le_left (a.drop i) (b.drop j)
    simp only [List.length_drop] at h
    unfold blockLenAt
    omega
  · have h := commonPrefixLen_le_right (a.drop i) (b.drop j)
    simp only [List.length_drop] at h
    unfold blockLenAt
    omega

theorem bestBlock_bounds (a b : List Char) :
    (bestBlock a b).1 + (bestBlock a b).2.2 ≤ a.length ∧
      (bestBlock a b).2.1 + (bestBlock a b).2.2 ≤ b.length := by
  unfold bestBlock
  refine List.foldlRecOn
    (motive := fun t : Nat × Nat × Nat =>
      t.1 + t.2.2 ≤ a.length ∧ t.2.1 + t.2.2 ≤ b.length) _ _ _ ?_ ?_
  · simp
  · intro acc hacc i hi
    refine List.foldlRecOn
      (motive := fun t : Nat × Nat × Nat =>
        t.1 + t.2.2 ≤ a.length ∧ t.2.1 + t.2.2 ≤ b.length) _ _ _ hacc ?_
    intro acc2 hacc2 j hj
    dsimp only
    have hia : i < a.length := List.mem_range.mp hi
    have hjb : j < b.length := List.mem_range.mp hj
    by_cases hlt : acc2.2.2 < blockLenAt a b i j
    · have hb := blockLenAt_bounds a b i j
      simp only [if_pos hlt]
      refine ⟨?_, ?_⟩
      · have := hb.1
        omega
      · have := hb.2
        omega
    · simpa [if_neg hlt] using hacc2

theorem matchTotalF_le (fuel : Nat) (a b : List Char) :
    matchTotalF fuel a b ≤ min a.length b.length := by
  induction fuel generalizing a b with
  | zero => simp [matchTotalF]
  | succ n ih =>
    rw [matchTotalF]
    by_cases hz : (bestBlock a b).2.2 = 0
    · simp [hz]
    · simp only [hz, if_neg, if_false]
      have hb := bestBlock_bounds a b
      have h1 := ih (a.take (bestBlock a b).1) (b.take (bestBlock a b).2.1)
      have h2 := ih (a.drop ((bestBlock a b).1 + (bestBlock a b).2.2))
        (b.drop ((bestBlock a b).2.1 + (bestBlock a b).2.2))
      simp only [List.length_take, List.length_drop] at h1 h2
      omega

theorem matchTotal_le (a b : List Char) :
    matchTotal a b ≤ min a.length b.length := matchTotalF_le _ a b

theorem smRatio_nonneg (a b : List Char) : 0 ≤ smRatio a b := by
  unfold smRatio
  split
  · norm_num
  · positivity

theorem smRatio_le_one (a b : List Char) : smRatio a b ≤ 1 := by
  unfold smRatio
  split
  · norm_num
  · rename_i h
    have hpos : (0 : ℚ) < (a.length + b.length : ℚ) := by
      have : 0 < a.length + b.length := Nat.pos_of_ne_zero h
      exact_mod_cast this
    rw [div_le_one hpos]
    have hm := matchTotal_le a b
    have : 2 * matchTotal a b ≤ a.length + b.length := by omega
    exact_mod_cast this

theorem bestTokenMatchRatio_nonneg (t blob : List Char) :
    0 ≤ bestTokenMatchRatio t blob := by
  unfold bestTokenMatchRatio
  split
  · exact le_refl _
  · split
    · norm_num
    · dsimp only
      split
      · exact le_refl _
      · exact maxNE_nonneg (by
          intro x hx
          obtain ⟨w, _, rfl⟩ := List.mem_map.mp hx
          exact smRatio_nonneg _ _)

theorem bestTokenMatchRatio_le_one (t blob : List Char) :
    bestTokenMatchRatio t blob ≤ 1 := by
  unfold bestTokenMatchRatio
  split
  · norm_num
  · split
    · exact le_refl _
    · dsimp only
      split
      · norm_num
      · exact maxNE_le_one (by
          intro x hx
          obtain ⟨w, _, rfl⟩ := List.mem_map.mp hx
          exact smRatio_le_one _ _)

theorem averageTokenMatchRatio_nonneg (ts : List (List Char))
    (blob : List Char) : 0 ≤ averageTokenMatchRatio ts blob := by
  unfold averageTokenMatchRatio
  split
  · exact le_refl _
  · dsimp only
    split
    · exact le_refl _
    · apply div_nonneg
      · apply List.sum_nonneg
        intro x hx
        obtain ⟨t, _, rfl⟩ := List.mem_map.mp hx
        split
        · norm_num
        · exact maxNE_nonneg (by
            intro y hy
            obtain ⟨w, _, rfl⟩ := List.mem_map.mp hy
            exact smRatio_nonneg _ _)
      · positivity

theorem averageTokenMatchRatio_le_one (ts : List (List Char))
    (blob : List Char) : averageTokenMatchRatio ts blob ≤ 1 := by
  unfold averageTokenMatchRatio
  split
  · norm_num
  · dsimp only
    split
    · norm_num
    · rename_i hts _
      have hne : ts ≠ [] := by
        intro h
        exact hts (Or.inl h)
      have hlen : (0 : ℚ) < (ts.length : ℚ) := by
        have : 0 < ts.length := List.length_pos.mpr hne
        exact_mod_cast this
      rw [div_le_one hlen]
      have hb := List.sum_le_card_nsmul
        (ts.map (fun t =>
          if containsSeq t blob then (1 : ℚ)
          else maxNE ((splitWS blob).map (fun w => smRatio t w)))) 1
        (by
          intro x hx
          obtain ⟨t, _, rfl⟩ := List.mem_map.mp hx
          split
          · norm_num
          · exact maxNE_le_one (by
              intro y hy
              obtain ⟨w, _, rfl⟩ := List.mem_map.mp hy
              exact smRatio_le_one _ _))
      simpa using hb

/-! ## Bound lemmas: numeric field scores -/

theorem proximityDecayScore_nonneg (v : ℚ) (xs : List ℚ) :
    0 ≤ proximityDecayScore v xs := by
  unfold proximityDecayScore
  split
  · exact le_refl _
  · exact le_max_left 0 _

theorem proximityDecayScore_le_one (v : ℚ) (xs : List ℚ) :
    proximityDecayScore v xs ≤ 1 := by
  unfold proximityDecayScore
  split
  · norm_num
  · rename_i x rest
    dsimp only
    have hnear : 0 ≤ minNE ((x :: rest).map (fun y => |y - v|)) := by
      apply minNE_nonneg
      intro z hz
      obtain ⟨y, _, rfl⟩ := List.mem_map.mp hz
      exact abs_nonneg _
    have hdelta : (0 : ℚ) < max 1 (TOL * max 1 v) := lt_of_lt_of_le one_pos
      (le_max_left _ _)
    have : 0 ≤ minNE ((x :: rest).map (fun y => |y - v|)) /
        max 1 (TOL * max 1 v) := div_nonneg hnear (le_of_lt hdelta)
    have h1 : 1 - minNE ((x :: rest).map (fun y => |y - v|)) /
        max 1 (TOL * max 1 v) ≤ 1 := by linarith
    exact max_le (by norm_num) h1

theorem exactHit_nonneg (v : ℚ) (xs : List ℚ) : 0 ≤ exactHit v xs := by
  unfold exactHit
  split <;> norm_num

theorem exactHit_le_one (v : ℚ) (xs : List ℚ) : exactHit v xs ≤ 1 := by
  unfold exactHit
  split <;> norm_num

theorem dToInterval_nonneg (x a b : ℚ) : 0 ≤ dToInterval x a b := by
  unfold dToInterval
  split
  · linarith [show x < a from by assumption]
  · split
    · linarith [show b < x from by assumption]
    · exact le_refl _

theorem iouFold_bounds (lo hi : ℚ) (ranges : List (ℚ × ℚ)) (init : ℚ)
    (h0 : 0 ≤ init) (h1 : init ≤ 1) :
    0 ≤ ranges.foldl
        (fun acc r =>
          let inter := max 0 (min hi r.2 - max lo r.1)
          let uni := max hi r.2 - min lo r.1
          let iou := if 0 < uni then inter / uni else 0
          max acc iou) init ∧
      ranges.foldl
        (fun acc r =>
          let inter := max 0 (min hi r.2 - max lo r.1)
          let uni := max hi r.2 - min lo r.1
          let iou := if 0 < uni then inter / uni else 0
          max acc iou) init ≤ 1 := by
  induction ranges generalizing init with
  | nil => exact ⟨h0, h1⟩
  | cons r rs ih =>
    simp only [List.foldl_cons]
    apply ih
    · exact le_trans h0 (le_max_left _ _)
    · apply max_le h1
      dsimp only
      split
      · rename_i huni
        rw [div_le_one huni]
        have hle : min hi r.2 - max lo r.1 ≤ max hi r.2 - min lo r.1 := by
          have := min_le_max (a := hi) (b := r.2)
          have := min_le_max (a := lo) (b := r.1)
          have h3 : min hi r.2 ≤ max hi r.2 := min_le_max
          have h4 : min lo r.1 ≤ max lo r.1 := min_le_max
          linarith
        exact max_le (le_of_lt huni) hle
      · norm_num

theorem rangeOverlapOrEdgeScore_nonneg (t : ℚ × ℚ) (ranges : List (ℚ × ℚ))
    (singles : List ℚ) : 0 ≤ rangeOverlapOrEdgeScore t ranges singles := by
  simp only [rangeOverlapOrEdgeScore]
  split
  · norm_num
  · split
    · exact (iouFold_bounds _ _ ranges 0 (le_refl 0) (by norm_num)).1
    · exact le_trans
        (iouFold_bounds _ _ ranges 0 (le_refl 0) (by norm_num)).1
        (le_max_left _ _)

theorem rangeOverlapOrEdgeScore_le_one (t : ℚ × ℚ) (ranges : List (ℚ × ℚ))
    (singles : List ℚ) : rangeOverlapOrEdgeScore t ranges singles ≤ 1 := by
  simp only [rangeOverlapOrEdgeScore]
  split
  · exact le_refl _
  · split
    · exact (iouFold_bounds _ _ ranges 0 (le_refl 0) (by norm_num)).2
    · apply max_le (iouFold_bounds _ _ ranges 0 (le_refl 0) (by norm_num)).2
      apply max_le (by norm_num)
      have hnear : 0 ≤ minNE
          ((singles ++ ranges.foldl (fun acc r => acc ++ [r.1, r.2]) []).map
            (fun x => dToInterval x (min t.1 t.2) (max t.1 t.2))) := by
        apply minNE_nonneg
        intro z hz
        obtain ⟨y, _, rfl⟩ := List.mem_map.mp hz
        exact dToInterval_nonneg _ _ _
      have hdelta : (0 : ℚ) <
          max 1 (TOL * max 1 (max t.1 t.2 - min t.1 t.2)) :=
        lt_of_lt_of_le one_pos (le_max_left _ _)
      have := div_nonneg hnear (le_of_lt hdelta)
      linarith

/-! ## Bound lemmas: the full row score -/

theorem fieldContribs_bounds (row : CatalogRow) (f : SearchFeatures) :
    ∀ p ∈ fieldContribs row f defaultWeights, 0 < p.1 ∧ 0 ≤ p.2 ∧ p.2 ≤ 1 := by
  intro p hp
  unfold fieldContribs at hp
  simp only [List.mem_append] at hp
  rcases hp with ((((((hp | hp) | hp) | hp) | hp) | hp) | hp) | hp
  · revert hp
    split <;> intro hp
    · simp only [List.mem_singleton] at hp
      subst hp
      exact ⟨by norm_num [defaultWeights], averageTokenMatchRatio_nonneg _ _,
        averageTokenMatchRatio_le_one _ _⟩
    · simp at hp
  · revert hp
    split <;> intro hp
    · simp only [List.mem_singleton] at hp
      subst hp
      exact ⟨by norm_num [defaultWeights], averageTokenMatchRatio_nonneg _ _,
        averageTokenMatchRatio_le_one _ _⟩
    · simp at hp
  · revert hp
    split <;> intro hp
    · simp only [List.mem_singleton] at hp
      subst hp
      exact ⟨by norm_num [defaultWeights], averageTokenMatchRatio_nonneg _ _,
        averageTokenMatchRatio_le_one _ _⟩
    · simp at hp
  · revert hp
    split <;> intro hp
    · simp only [List.mem_singleton] at hp
      subst hp
      exact ⟨by norm_num [defaultWeights], bestTokenMatchRatio_nonneg _ _,
        bestTokenMatchRatio_le_one _ _⟩
    · simp at hp
  · revert hp
    split <;> intro hp
    · simp only [List.mem_singleton] at hp
      subst hp
      refine ⟨by norm_num [defaultWeights], le_max_of_le_left
        (exactHit_nonneg _ _), max_le (exactHit_le_one _ _)
        (proximityDecayScore_le_one _ _)⟩
    · simp at hp
  · revert hp
    split <;> intro hp
    · simp only [List.mem_singleton] at hp
      subst hp
      exact ⟨by norm_num [defaultWeights],
        rangeOverlapOrEdgeScore_nonneg _ _ _,
        rangeOverlapOrEdgeScore_le_one _ _ _⟩
    · revert hp
      split <;> intro hp
      · simp only [List.mem_singleton] at hp
        subst hp
        refine ⟨by norm_num [defaultWeights], le_max_of_le_left
          (exactHit_nonneg _ _), max_le (exactHit_le_one _ _)
          (proximityDecayScore_le_one _ _)⟩
      · simp at hp
  · revert hp
    split <;> intro hp
    · simp only [List.mem_singleton] at hp
      subst hp
      refine ⟨by norm_num [defaultWeights], le_max_of_le_left
        (exactHit_nonneg _ _), max_le (exactHit_le_one _ _)
        (proximityDecayScore_le_one _ _)⟩
    · simp at hp
  · revert hp
    split <;> intro hp
    · simp only [List.mem_singleton] at hp
      subst hp
      exact ⟨by norm_num [defaultWeights],
        rangeOverlapOrEdgeScore_nonneg _ _ _,
        rangeOverlapOrEdgeScore_le_one _ _ _⟩
    · revert hp
      split <;> intro hp
      · simp only [List.mem_singleton] at hp
        subst hp
        refine ⟨by norm_num [defaultWeights], le_max_of_le_left
          (exactHit_nonneg _ _), max_le (exactHit_le_one _ _)
          (proximityDecayScore_le_one _ _)⟩
      · simp at hp

theorem scoreCatalogRowAgainstItem_nonneg (row : CatalogRow)
    (f : SearchFeatures) :
    0 ≤ scoreCatalogRowAgainstItem row f defaultWeights := by
  unfold scoreCatalogRowAgainstItem
  dsimp only
  split
  · exact le_refl _
  · rename_i hden
    push_neg at hden
    apply div_nonneg
    · apply List.sum_nonneg
      intro x hx
      obtain ⟨q, hq, rfl⟩ := List.mem_map.mp hx
      obtain ⟨h1, h2, _⟩ := fieldContribs_bounds row f q hq
      exact mul_nonneg (le_of_lt h1) h2
    · linarith

theorem scoreCatalogRowAgainstItem_le_one (row : CatalogRow)
    (f : SearchFeatures) :
    scoreCatalogRowAgainstItem row f defaultWeights ≤ 1 := by
  unfold scoreCatalogRowAgainstItem
  dsimp only
  split
  · norm_num
  · rename_i hden
    push_neg at hden
    have hpos : (0 : ℚ) <
        ((fieldContribs row f defaultWeights).map (fun p => p.1)).sum := by
      linarith
    rw [div_le_one hpos]
    apply List.sum_le_sum
    intro q hq
    obtain ⟨h1, _, h3⟩ := fieldContribs_bounds row f q hq
    calc q.1 * q.2 ≤ q.1 * 1 := by
          exact mul_le_mul_of_nonneg_left h3 (le_of_lt h1)
      _ = q.1 := mul_one q.1

/-! ## Stability of the descending sort -/

theorem orderedInsert_stableDesc (a : ScoredRow) (l : List ScoredRow)
    (hP : l.Pairwise stableDesc) (hS : l.Sorted scoreGE)
    (hIdx : ∀ y ∈ l, a.2.1 < y.2.1) :
    (l.orderedInsert scoreGE a).Pairwise stableDesc := by
  induction l with
  | nil => simp [List.orderedInsert]
  | cons y ys ih =>
    rw [List.orderedInsert]
    by_cases hr : scoreGE a y
    · rw [if_pos hr]
      refine List.pairwise_cons.mpr ⟨?_, hP⟩
      intro z hz
      have hzy : z.2.2 ≤ a.2.2 := by
        rcases List.mem_cons.mp hz with rfl | hz'
        · exact hr
        · exact le_trans ((List.sorted_cons.mp hS).1 z hz') hr
      rcases lt_or_eq_of_le hzy with h | h
      · exact Or.inl h
      · exact Or.inr ⟨h.symm, hIdx z hz⟩
    · rw [if_neg hr]
      have hay : a.2.2 < y.2.2 := lt_of_not_le hr
      refine List.pairwise_cons.mpr ⟨?_, ?_⟩
      · intro z hz
        rcases (List.mem_orderedInsert scoreGE).mp hz with rfl | hz'
        · exact Or.inl hay
        · exact (List.pairwise_cons.mp hP).1 z hz'
      · exact ih (List.pairwise_cons.mp hP).2 (List.sorted_cons.mp hS).2
          (fun z hz => hIdx z (List.mem_cons_of_mem y hz))

theorem insertionSort_stableDesc (l : List ScoredRow)
    (h : l.Pairwise (fun p q => p.2.1 < q.2.1)) :
    (l.insertionSort scoreGE).Pairwise stableDesc := by
  induction l with
  | nil => simp [List.insertionSort]
  | cons x xs ih =>
    rw [List.insertionSort]
    obtain ⟨hx, hxs⟩ := List.pairwise_cons.mp h
    refine orderedInsert_stableDesc x _ (ih hxs)
      (List.sorted_insertionSort scoreGE xs) ?_
    intro y hy
    exact hx y ((List.perm_insertionSort scoreGE xs).mem_iff.mp hy)

/-! ## Orchestrator shape lemmas -/

theorem candidatesOf_sublist (item : QueryItem)
    (records : List (Nat × CatalogRow)) :
    (candidatesOf item records).Sublist records := by
  unfold candidatesOf
  dsimp only
  have h1 : (if strTruthy item.brand then
      records.filter (fun p =>
        normalizeBrandKey p.2.brand = normalizeBrandKey (strD item.brand))
    else records).Sublist records := by
    split
    · exact List.filter_sublist records
    · exact List.Sublist.refl records
  split
  · exact (List.filter_sublist _).trans h1
  · exact h1

theorem matchOneItem_alternatives (item : QueryItem)
    (records : List (Nat × CatalogRow)) (topK : Nat) (w : Weights) :
    (matchOneItem item records topK w).alternatives =
      (((candidatesOf item records).map (fun p =>
        ((p.2, p.1, scoreCatalogRowAgainstItem p.2
          (extractItemSearchFeatures item) w) : ScoredRow))).insertionSort
            scoreGE).take topK := by
  unfold matchOneItem
  dsimp only
  split
  · rename_i heq
    rw [heq]
    simp
  · rename_i top rest heq
    rw [heq]

/-- C3 helper: the sorted scored list is a permutation of the scored
candidates. -/
theorem mem_alternatives_mem_candidates (item : QueryItem)
    (records : List (Nat × CatalogRow)) (topK : Nat) (w : Weights)
    (alt : ScoredRow)
    (h : alt ∈ (matchOneItem item records topK w).alternatives) :
    ∃ p ∈ candidatesOf item records,
      alt = (p.2, p.1, scoreCatalogRowAgainstItem p.2
        (extractItemSearchFeatures item) w) := by
  rw [matchOneItem_alternatives] at h
  have h2 := List.mem_of_mem_take h
  have h3 := (List.perm_insertionSort scoreGE _).mem_iff.mp h2
  obtain ⟨p, hp, rfl⟩ := List.mem_map.mp h3
  exact ⟨p, hp, rfl⟩

/-- C3 (functional_correctness).
For every query item and catalog, every score computed by
`score_catalog_row_against_item` (with the default weights) is the
weighted sum of the present fields' scores divided by the sum of the
present fields' weights and lies in [0,1]; and the alternatives list of a
match result is sorted non-increasingly by score, with equal-score rows
kept in their original catalog order (the catalog indices are strictly
increasing, as produced by `catalog_df_to_record_list`). -/
theorem claim_C3_score_bounds_and_stable_ranking (item : QueryItem)
    (records : List (Nat × CatalogRow)) (topK : Nat)
    (hidx : records.Pairwise (fun p q => p.1 < q.1)) :
    (∀ row : CatalogRow,
      scoreCatalogRowAgainstItem row (extractItemSearchFeatures item)
          defaultWeights =
        (if ((fieldContribs row (extractItemSearchFeatures item)
            defaultWeights).map (fun p => p.1)).sum ≤ 1 / 1000000000 then 0
         else ((fieldContribs row (extractItemSearchFeatures item)
             defaultWeights).map (fun p => p.1 * p.2)).sum /
           ((fieldContribs row (extractItemSearchFeatures item)
             defaultWeights).map (fun p => p.1)).sum) ∧
      0 ≤ scoreCatalogRowAgainstItem row (extractItemSearchFeatures item)
          defaultWeights ∧
      scoreCatalogRowAgainstItem row (extractItemSearchFeatures item)
          defaultWeights ≤ 1) ∧
    (∀ alt ∈ (matchOneItem item records topK defaultWeights).alternatives,
      0 ≤ alt.2.2 ∧ alt.2.2 ≤ 1) ∧
    (matchOneItem item records topK
        defaultWeights).alternatives.Pairwise stableDesc := by
  refine ⟨?_, ?_, ?_⟩
  · intro row
    exact ⟨rfl, scoreCatalogRowAgainstItem_nonneg row _,
      scoreCatalogRowAgainstItem_le_one row _⟩
  · intro alt halt
    obtain ⟨p, _, rfl⟩ :=
      mem_alternatives_mem_candidates item records topK defaultWeights alt halt
    exact ⟨scoreCatalogRowAgainstItem_nonneg _ _,
      scoreCatalogRowAgainstItem_le_one _ _⟩
  · rw [matchOneItem_alternatives]
    apply List.Pairwise.sublist (List.take_sublist _ _)
    apply insertionSort_stableDesc
    refine (List.pairwise_map).mpr ?_
    exact List.Pairwise.sublist (candidatesOf_sublist item records) hidx

/-- C3 witness: the theorem applied at a concrete item and catalog with
strictly increasing indices. -/
theorem claim_C3_witness :
    (([((0 : Nat), (⟨"A1", "Acme", "forceps", "", "10 mm", "cat"⟩ :
        CatalogRow)), (1, ⟨"B2", "Bob", "scissors", "", "20 mm", "cat"⟩)] :
      List (Nat × CatalogRow)).Pairwise (fun p q => p.1 < q.1)) ∧
    (∀ alt ∈ (matchOneItem { brand := some "Acme" }
        [(0, ⟨"A1", "Acme", "forceps", "", "10 mm", "cat"⟩),
         (1, ⟨"B2", "Bob", "scissors", "", "20 mm", "cat"⟩)] 2
        defaultWeights).alternatives, 0 ≤ alt.2.2 ∧ alt.2.2 ≤ 1) := by
  have hidx : (([((0 : Nat), (⟨"A1", "Acme", "forceps", "", "10 mm", "cat"⟩ :
      CatalogRow)), (1, ⟨"B2", "Bob", "scissors", "", "20 mm", "cat"⟩)] :
      List (Nat × CatalogRow)).Pairwise (fun p q => p.1 < q.1)) := by
    simp
  exact ⟨hidx, (claim_C3_score_bounds_and_stable_ranking
    { brand := some "Acme" } _ 2 hidx).2.1⟩

/-! ## Operator-branch evaluation lemmas for the dimension constraint -/

theorem satisfies_eq_eval (v : ℚ) (s : List ℚ) (r : List (ℚ × ℚ)) :
    satisfiesDimensionConstraint v (some "=") s r =
      valueMatchesSinglesOrRanges v s r := by
  simp only [satisfiesDimensionConstraint]
  rw [if_pos (by decide)]

theorem satisfies_ge_eval (v : ℚ) (s : List ℚ) (r : List (ℚ × ℚ)) :
    satisfiesDimensionConstraint v (some ">=") s r =
      (s.any (fun x => decide (v * (1 - TOL) - EPS ≤ x)) ||
       r.any (fun q => decide (v * (1 - TOL) - EPS ≤ q.2))) := by
  simp only [satisfiesDimensionConstraint]
  rw [if_neg (by decide), if_pos (by decide)]

theorem satisfies_le_eval (v : ℚ) (s : List ℚ) (r : List (ℚ × ℚ)) :
    satisfiesDimensionConstraint v (some "<=") s r =
      (s.any (fun x => decide (x ≤ v * (1 + TOL) + EPS)) ||
       r.any (fun q => decide (q.1 ≤ v * (1 + TOL) + EPS))) := by
  simp only [satisfiesDimensionConstraint]
  rw [if_neg (by decide), if_neg (by decide), if_pos (by decide)]

theorem satisfies_gt_eval (v : ℚ) (s : List ℚ) (r : List (ℚ × ℚ)) :
    satisfiesDimensionConstraint v (some ">") s r =
      (s.any (fun x => decide (v * (1 - TOL) + EPS < x)) ||
       r.any (fun q => decide (v * (1 - TOL) + EPS < q.2))) := by
  simp only [satisfiesDimensionConstraint]
  rw [if_neg (by decide), if_neg (by decide), if_neg (by decide),
    if_pos (by decide)]

theorem satisfies_lt_eval (v : ℚ) (s : List ℚ) (r : List (ℚ × ℚ)) :
    satisfiesDimensionConstraint v (some "<") s r =
      (s.any (fun x => decide (x < v * (1 + TOL) - EPS)) ||
       r.any (fun q => decide (q.1 < v * (1 + TOL) - EPS))) := by
  simp only [satisfiesDimensionConstraint]
  rw [if_neg (by decide), if_neg (by decide), if_neg (by decide),
    if_neg (by decide), if_pos (by decide)]

/-! ## C2 — dimension tolerance symmetry -/

/-- C2 counterexample (functional_correctness).
The claim states that `satisfies(v*1.06, '<=', singles=[v], ranges=[])` is
rejected at the 5% boundary, and that `satisfies(v, op, [v], [])` is true
for every value and operator. Both parts fail on the code: with `'<='` the
threshold `v*1.06*1.05` grows with the query value, so the reference
single `100` still satisfies the query `106`; and with `v = 0` the strict
operators compare against `0 ± eps` and reject. -/
theorem claim_C2_counterexample :
    satisfiesDimensionConstraint 106 (some "<=") [100] [] = true ∧
    satisfiesDimensionConstraint 0 (some ">") [0] [] = false := by
  constructor
  · rw [satisfies_le_eval]
    norm_num [TOL, EPS]
  · rw [satisfies_gt_eval]
    norm_num [TOL, EPS]

/-- C2 amended (functional_correctness).
For every `v ≥ 1` and every operator in `{=, >=, <=, >, <}`,
`satisfies(v, op, [v], [])` is true (for `v = 0` the strict operators
fail, hence the bound); `satisfies(v*1.049, '<=', [v], [])` is true, but
so is `satisfies(v*1.06, '<=', [v], [])` — the `'<='` test only loosens
as the query grows. The 5% tolerance boundary the claim describes shows
with the `'='` operator: `satisfies(v*1.049, '=', [v], [])` is true while
`satisfies(v*1.06, '=', [v], [])` is false. -/
theorem claim_C2_amended (v : ℚ) (hv : 1 ≤ v) :
    satisfiesDimensionConstraint v (some "=") [v] [] = true ∧
    satisfiesDimensionConstraint v (some ">=") [v] [] = true ∧
    satisfiesDimensionConstraint v (some "<=") [v] [] = true ∧
    satisfiesDimensionConstraint v (some ">") [v] [] = true ∧
    satisfiesDimensionConstraint v (some "<") [v] [] = true ∧
    satisfiesDimensionConstraint (v * (1049 / 1000)) (some "<=") [v] [] =
      true ∧
    satisfiesDimensionConstraint (v * (106 / 100)) (some "<=") [v] [] =
      true ∧
    satisfiesDimensionConstraint (v * (1049 / 1000)) (some "=") [v] [] =
      true ∧
    satisfiesDimensionConstraint (v * (106 / 100)) (some "=") [v] [] =
      false := by
  have hmax1 : max v (1 : ℚ) = v := max_eq_left hv
  refine ⟨?_, ?_, ?_, ?_, ?_, ?_, ?_, ?_, ?_⟩
  · rw [satisfies_eq_eval]
    simp only [valueMatchesSinglesOrRanges, List.any_cons, List.any_nil,
      Bool.or_false, decide_eq_true_eq]
    rw [hmax1, max_self]
    norm_num [TOL, EPS]
    nlinarith
  · rw [satisfies_ge_eval]
    simp only [List.any_cons, List.any_nil, Bool.or_false,
      decide_eq_true_eq]
    norm_num [TOL, EPS]
    nlinarith
  · rw [satisfies_le_eval]
    simp only [List.any_cons, List.any_nil, Bool.or_false,
      decide_eq_true_eq]
    norm_num [TOL, EPS]
    nlinarith
  · rw [satisfies_gt_eval]
    simp only [List.any_cons, List.any_nil, Bool.or_false,
      decide_eq_true_eq]
    norm_num [TOL, EPS]
    nlinarith
  · rw [satisfies_lt_eval]
    simp only [List.any_cons, List.any_nil, Bool.or_false,
      decide_eq_true_eq]
    norm_num [TOL, EPS]
    nlinarith
  · rw [satisfies_le_eval]
    simp only [List.any_cons, List.any_nil, Bool.or_false,
      decide_eq_true_eq]
    norm_num [TOL, EPS]
    nlinarith
  · rw [satisfies_le_eval]
    simp only [List.any_cons, List.any_nil, Bool.or_false,
      decide_eq_true_eq]
    norm_num [TOL, EPS]
    nlinarith
  · rw [satisfies_eq_eval]
    simp only [valueMatchesSinglesOrRanges, List.any_cons, List.any_nil,
      Bool.or_false, decide_eq_true_eq]
    rw [hmax1]
    rw [max_eq_left (by nlinarith : v ≤ v * (1049 / 1000))]
    rw [abs_of_nonpos (by nlinarith : v - v * (1049 / 1000) ≤ 0)]
    norm_num [TOL, EPS]
    nlinarith
  · rw [satisfies_eq_eval]
    simp only [valueMatchesSinglesOrRanges, List.any_cons, List.any_nil,
      Bool.or_false, decide_eq_true_eq]
    rw [hmax1]
    rw [max_eq_left (by nlinarith : v ≤ v * (106 / 100))]
    rw [abs_of_nonpos (by nlinarith : v - v * (106 / 100) ≤ 0)]
    norm_num [TOL, EPS]
    nlinarith

/-- C2 amended witness: the amended theorem applied at `v = 100`. -/
theorem claim_C2_amended_witness :
    (1 : ℚ) ≤ 100 ∧
      satisfiesDimensionConstraint (100 * (106 / 100)) (some "=") [100] [] =
        false :=
  ⟨by norm_num, (claim_C2_amended 100 (by norm_num)).2.2.2.2.2.2.2.2⟩

/-! ## C6 — missing dimension data never passes -/

theorem valueMatches_nil (v : ℚ) :
    valueMatchesSinglesOrRanges v [] [] = false := by
  simp [valueMatchesSinglesOrRanges]

theorem rangeFullyContained_nil (lo hi : ℚ) :
    rangeFullyContained lo hi [] = false := by
  simp [rangeFullyContained]

theorem satisfies_nil (v : ℚ) (op : Option String) :
    satisfiesDimensionConstraint v op [] [] = false := by
  simp [satisfiesDimensionConstraint, valueMatchesSinglesOrRanges]

/-- C6 (error_handling).
A reference row whose dimensions text yields no parseable numeric data —
an empty `DimensionSet` — fails every dimension constraint: every
operator form of `satisfies_dimension_constraint` returns false on empty
singles/ranges, every range containment fails, and a query carrying at
least one complete dimension constraint (a value, or a full `(min, max)`
range; the row check skips a lone range endpoint) excludes the row. -/
theorem claim_C6_empty_dims_never_pass :
    (∀ (v : ℚ) (op : Option String),
      satisfiesDimensionConstraint v op [] [] = false) ∧
    (∀ lo hi : ℚ, rangeFullyContained lo hi [] = false) ∧
    (∀ item : QueryItem, hasCompleteDimConstraint item = true →
      rowSatisfiesRequiredDimensions item emptyRowDims = false) := by
  refine ⟨satisfies_nil, rangeFullyContained_nil, ?_⟩
  intro item h
  by_contra hne
  rw [Bool.not_eq_false] at hne
  simp only [rowSatisfiesRequiredDimensions, emptyRowDims,
    Bool.and_eq_true] at hne
  obtain ⟨⟨⟨⟨h1, h2⟩, h3⟩, h4⟩, h5⟩ := hne
  simp only [hasCompleteDimConstraint, Bool.or_eq_true,
    Bool.and_eq_true, Option.isSome_iff_exists] at h
  rcases h with ((((((⟨v, hv⟩ | ⟨v, hv⟩) | ⟨⟨lo, hlo⟩, ⟨hi, hhi⟩⟩) |
      ⟨v, hv⟩) | ⟨v, hv⟩) | ⟨⟨lo, hlo⟩, ⟨hi, hhi⟩⟩) | ⟨v, hv⟩)
  · simp only [hv, satisfies_nil] at h1
    exact Bool.false_ne_true h1
  · simp only [hv, satisfies_nil] at h2
    exact Bool.false_ne_true h2
  · simp only [hlo, hhi, rangeFullyContained_nil, valueMatches_nil] at h3
    simp at h3
  · rcases hmin : item.height_min_mm with _ | lo <;>
      rcases hmax : item.height_max_mm with _ | hi <;>
      simp only [hmin, hmax, hv, satisfies_nil, rangeFullyContained_nil,
        valueMatches_nil] at h3 <;> simp at h3
  · simp only [hv, satisfies_nil] at h4
    exact Bool.false_ne_true h4
  · simp only [hlo, hhi, rangeFullyContained_nil, valueMatches_nil] at h5
    simp at h5
  · rcases hmin : item.capacity_min_ml with _ | lo <;>
      rcases hmax : item.capacity_max_ml with _ | hi <;>
      simp only [hmin, hmax, hv, rangeFullyContained_nil,
        valueMatches_nil] at h5 <;> simp at h5

/-- C6 witness: a query with a single complete length constraint excludes
a row with empty parsed dimensions. -/
theorem claim_C6_witness :
    hasCompleteDimConstraint { length_mm := some 60, length_op := some "=" } =
      true ∧
    rowSatisfiesRequiredDimensions
      { length_mm := some 60, length_op := some "=" } emptyRowDims = false := by
  refine ⟨by rfl, ?_⟩
  exact claim_C6_empty_dims_never_pass.2.2 _ (by rfl)

/-! ## C7 — diameter-tagged values are preferred -/

/-- C7 (functional_correctness).
Diameter-tagged numbers and ranges (prefixed `ø`/`phi`/`diam(eter)`) form
the diameter-specific sets of a row's parsed dimensions; they are used for
the diameter constraint of the filter, and when no tagged value survives
mm conversion the diameter sets fall back to the generic length (mm)
sets. -/
theorem claim_C7_diameter_preference (parsed : ParsedDims) (v : ℚ)
    (op : Option String) (dims : RowDims) :
    (diaTaggedSingles parsed ≠ [] →
      (buildRowDimsOf parsed).diaSingles = diaTaggedSingles parsed) ∧
    (diaTaggedSingles parsed = [] →
      (buildRowDimsOf parsed).diaSingles = scoringMmSingles parsed) ∧
    (diaTaggedRanges parsed ≠ [] →
      (buildRowDimsOf parsed).diaRanges = diaTaggedRanges parsed) ∧
    (diaTaggedRanges parsed = [] →
      (buildRowDimsOf parsed).diaRanges = scoringMmRanges parsed) ∧
    rowSatisfiesRequiredDimensions (diaOnlyItem v op) dims =
      satisfiesDimensionConstraint v op dims.diaSingles dims.diaRanges := by
  refine ⟨?_, ?_, ?_, ?_, ?_⟩
  · intro h
    show (if diaTaggedSingles parsed ≠ [] then diaTaggedSingles parsed
      else scoringMmSingles parsed) = diaTaggedSingles parsed
    rw [if_pos h]
  · intro h
    show (if diaTaggedSingles parsed ≠ [] then diaTaggedSingles parsed
      else scoringMmSingles parsed) = scoringMmSingles parsed
    simp [h]
  · intro h
    show (if diaTaggedRanges parsed ≠ [] then diaTaggedRanges parsed
      else scoringMmRanges parsed) = diaTaggedRanges parsed
    rw [if_pos h]
  · intro h
    show (if diaTaggedRanges parsed ≠ [] then diaTaggedRanges parsed
      else scoringMmRanges parsed) = scoringMmRanges parsed
    simp [h]
  · simp [rowSatisfiesRequiredDimensions, diaOnlyItem]

/-- C7 witness: a row text carrying `ø 20 mm` next to a generic `50 mm`
uses the tagged value `20` for the diameter check, and a row with no
tagged value falls back to the generic set. -/
theorem claim_C7_witness :
    diaTaggedSingles (parseDimensionsWithUnits "50 mm, ø 20 mm") ≠ [] ∧
    (buildRowDims "50 mm, ø 20 mm").diaSingles =
      diaTaggedSingles (parseDimensionsWithUnits "50 mm, ø 20 mm") ∧
    diaTaggedSingles (parseDimensionsWithUnits "50 mm") = [] ∧
    (buildRowDims "50 mm").diaSingles =
      scoringMmSingles (parseDimensionsWithUnits "50 mm") := by
  have h1 : diaTaggedSingles (parseDimensionsWithUnits "50 mm, ø 20 mm") ≠
      [] := by decide
  have h2 : diaTaggedSingles (parseDimensionsWithUnits "50 mm") = [] := by
    decide
  exact ⟨h1,
    (claim_C7_diameter_preference (parseDimensionsWithUnits "50 mm, ø 20 mm")
      0 none emptyRowDims).1 h1, h2,
    (claim_C7_diameter_preference (parseDimensionsWithUnits "50 mm")
      0 none emptyRowDims).2.1 h2⟩

/-! ## C1 — the candidate filter is hard -/

/-- C1 (error_handling).
For a query item that specifies a brand or any dimension constraint, the
candidate filter is hard: if it eliminates every reference row the result
is `best_match = None`, `best_index = None`, `score = 0.0` and empty
alternatives, with no fallback to scoring the unfiltered rows. In
particular, a truthy brand that matches no row's normalised brand empties
the candidates and yields that no-match result. -/
theorem claim_C1_hard_filter (item : QueryItem)
    (records : List (Nat × CatalogRow)) (topK : Nat)
    (_hconstraint : (strTruthy item.brand || hasDimensionKey item) = true) :
    (candidatesOf item records = [] →
      matchOneItem item records topK defaultWeights =
        emptyMatchResult item) ∧
    (strTruthy item.brand = true →
      (∀ p ∈ records,
        normalizeBrandKey p.2.brand ≠ normalizeBrandKey (strD item.brand)) →
      matchOneItem item records topK defaultWeights =
        emptyMatchResult item) := by
  have hmain : candidatesOf item records = [] →
      matchOneItem item records topK defaultWeights = emptyMatchResult item := by
    intro h
    unfold matchOneItem
    rw [h]
    simp [List.insertionSort, emptyMatchResult]
  refine ⟨hmain, ?_⟩
  intro hbrand hall
  apply hmain
  unfold candidatesOf
  rw [if_pos hbrand]
  have hfilter : records.filter (fun p =>
      normalizeBrandKey p.2.brand = normalizeBrandKey (strD item.brand)) =
        [] := by
    rw [List.filter_eq_nil_iff]
    intro p hp
    simp only [decide_eq_true_eq]
    exact hall p hp
  rw [hfilter]
  dsimp only
  split <;> simp

/-- C1 witness: query brand `"Acme"` against a single row with brand
`"Bob"` — the filter empties the candidates and the result is the no-match
record. -/
theorem claim_C1_witness :
    (strTruthy (QueryItem.brand { brand := some "Acme" }) ||
      hasDimensionKey { brand := some "Acme" }) = true ∧
    matchOneItem { brand := some "Acme" }
      [(0, ⟨"A1", "Bob", "t", "s", "10 mm", "c"⟩)] 1 defaultWeights =
      emptyMatchResult { brand := some "Acme" } := by
  refine ⟨by rfl, ?_⟩
  apply (claim_C1_hard_filter { brand := some "Acme" }
    [(0, ⟨"A1", "Bob", "t", "s", "10 mm", "c"⟩)] 1 (by rfl)).2 (by rfl)
  intro p hp
  simp only [List.mem_singleton] at hp
  subst hp
  decide

/-! ## C9 — best match mirrors the first alternative -/

/-- C9 counterexample (invariants).
With `top_k = 0` the alternatives list `scored[:top_k]` is empty although
a best match exists, contradicting the claim that an empty alternatives
list implies `best_match = None`. -/
theorem claim_C9_counterexample :
    (matchOneItem {} [(0, ⟨"", "", "", "", "", ""⟩)] 0
      defaultWeights).alternatives = [] ∧
    (matchOneItem {} [(0, ⟨"", "", "", "", "", ""⟩)] 0
      defaultWeights).bestMatch ≠ none := by
  have hc : fieldContribs ⟨"", "", "", "", "", ""⟩
      (extractItemSearchFeatures {}) defaultWeights = [] := by
    simp [fieldContribs, extractItemSearchFeatures, tokenizeSimple,
      toLowerStr, strD, strOr]
  have hscore : scoreCatalogRowAgainstItem ⟨"", "", "", "", "", ""⟩
      (extractItemSearchFeatures {}) defaultWeights = 0 := by
    simp [scoreCatalogRowAgainstItem, hc]
  have hcand : candidatesOf {} [(0, ⟨"", "", "", "", "", ""⟩)] =
      [(0, ⟨"", "", "", "", "", ""⟩)] := by
    simp [candidatesOf, strTruthy, strD, hasDimensionKey]
  constructor
  · simp [matchOneItem, hcand, hscore, List.insertionSort,
      List.orderedInsert]
  · simp [matchOneItem, hcand, hscore, List.insertionSort,
      List.orderedInsert]

/-- C9 amended (invariants).
Provided `top_k ≥ 1`: whenever the alternatives list is non-empty,
`best_match` is the row of its first entry, `best_index` its index and
`score` its score; and when the alternatives list is empty, `best_match`
and `best_index` are `None` and the score is `0.0`. -/
theorem claim_C9_amended (item : QueryItem)
    (records : List (Nat × CatalogRow)) (topK : Nat) (w : Weights)
    (hk : 1 ≤ topK) :
    ((matchOneItem item records topK w).alternatives = [] →
      (matchOneItem item records topK w).bestMatch = none ∧
      (matchOneItem item records topK w).bestIndex = none ∧
      (matchOneItem item records topK w).score = 0) ∧
    (∀ (a : ScoredRow) (rest : List ScoredRow),
      (matchOneItem item records topK w).alternatives = a :: rest →
      (matchOneItem item records topK w).bestMatch = some a.1 ∧
      (matchOneItem item records topK w).bestIndex = some a.2.1 ∧
      (matchOneItem item records topK w).score = a.2.2) := by
  obtain ⟨n, rfl⟩ : ∃ n, topK = n + 1 := ⟨topK - 1, by omega⟩
  unfold matchOneItem
  dsimp only
  split
  · exact ⟨fun _ => ⟨rfl, rfl, rfl⟩, fun a rest h => by simp at h⟩
  · rename_i top restS heq
    rw [heq]
    refine ⟨fun h => by simp [List.take] at h, ?_⟩
    intro a rest h
    simp only [List.take] at h
    obtain ⟨rfl, -⟩ := List.cons.injEq .. ▸ h
    exact ⟨rfl, rfl, rfl⟩

/-- C9 amended witness: the amended invariant applied at `top_k = 1` with
an empty catalog. -/
theorem claim_C9_amended_witness :
    1 ≤ 1 ∧
      ((matchOneItem {} [] 1 defaultWeights).alternatives = [] →
        (matchOneItem {} [] 1 defaultWeights).bestMatch = none ∧
        (matchOneItem {} [] 1 defaultWeights).bestIndex = none ∧
        (matchOneItem {} [] 1 defaultWeights).score = 0) :=
  ⟨by norm_num, (claim_C9_amended {} [] 1 defaultWeights (by norm_num)).1⟩

/-! ## C10 — bare unitless numbers satisfy both unit classes -/

/-- C10 (functional_correctness, implicit).
A number with no unit suffix converts successfully to both canonical unit
classes: `convert_unit_value(v, "", "mm") = v` and
`convert_unit_value(v, "", "ml") = v`, so a bare number is added both to a
row's mm singles and to its ml singles, and such a row satisfies a
same-valued length constraint and capacity constraint of one query
simultaneously; only a number with an explicit unit that is unrecognised
for the target class yields no value. -/
theorem claim_C10_bare_number_both_classes (v : ℚ) (u : List Char) :
    convertUnitValue v [] ['m', 'm'] = some v ∧
    convertUnitValue v [] ['m', 'l'] = some v ∧
    (buildRowDimsOf ⟨[(v, [])], [], [], []⟩).mmSingles = [v] ∧
    (buildRowDimsOf ⟨[(v, [])], [], [], []⟩).mlSingles = [v] ∧
    rowSatisfiesRequiredDimensions
      { length_mm := some v, length_op := some "=", capacity_ml := some v }
      (buildRowDimsOf ⟨[(v, [])], [], [], []⟩) = true ∧
    (convertUnitValue v u ['m', 'm'] = none ↔
      ¬(toLowerStr u = [] ∨ toLowerStr u = ['m', 'm'] ∨
        toLowerStr u = ['c', 'm'] ∨ toLowerStr u = ['m'])) ∧
    (convertUnitValue v u ['m', 'l'] = none ↔
      ¬(toLowerStr u = [] ∨ toLowerStr u = ['m', 'l'] ∨
        toLowerStr u = ['l'])) := by
  have hmm : convertUnitValue v [] ['m', 'm'] = some v := by
    simp [convertUnitValue, toLowerStr]
  have hml : convertUnitValue v [] ['m', 'l'] = some v := by
    simp [convertUnitValue, toLowerStr]
  have hdims : buildRowDimsOf ⟨[(v, [])], [], [], []⟩ =
      { mmSingles := [v], mmRanges := [], mlSingles := [v], mlRanges := [],
        diaSingles := [v], diaRanges := [] } := by
    simp [buildRowDimsOf, hmm, hml]
  have hvm : valueMatchesSinglesOrRanges v [v] [] = true := by
    simp only [valueMatchesSinglesOrRanges, List.any_cons, List.any_nil,
      Bool.or_false, decide_eq_true_eq]
    have h1 : (1 : ℚ) ≤ max v (max v 1) :=
      le_trans (le_max_right v 1) (le_max_right v (max v 1))
    rw [sub_self, abs_zero]
    have hT : TOL * 1 ≤ TOL * max v (max v 1) :=
      mul_le_mul_of_nonneg_left h1 (by norm_num [TOL])
    have hTpos : (0 : ℚ) < TOL := by norm_num [TOL]
    have hEpos : (0 : ℚ) < EPS := by norm_num [EPS]
    linarith
  refine ⟨hmm, hml, by rw [hdims], by rw [hdims], ?_, ?_, ?_⟩
  · rw [hdims]
    simp only [rowSatisfiesRequiredDimensions]
    rw [satisfies_eq_eval]
    simp [hvm]
  · simp only [convertUnitValue, if_true]
    by_cases h1 : toLowerStr u = [] ∨ toLowerStr u = ['m', 'm']
    · rw [if_pos h1]
      exact iff_of_false (by simp) (by tauto)
    · by_cases h2 : toLowerStr u = ['c', 'm']
      · rw [if_neg h1, if_pos h2]
        exact iff_of_false (by simp) (by tauto)
      · by_cases h3 : toLowerStr u = ['m']
        · rw [if_neg h1, if_neg h2, if_pos h3]
          exact iff_of_false (by simp) (by tauto)
        · rw [if_neg h1, if_neg h2, if_neg h3]
          exact iff_of_true rfl (by tauto)
  · simp only [convertUnitValue, if_true]
    by_cases h1 : toLowerStr u = [] ∨ toLowerStr u = ['m', 'l']
    · rw [if_pos h1]
      exact iff_of_false (by simp) (by tauto)
    · by_cases h2 : toLowerStr u = ['l']
      · rw [if_neg h1, if_pos h2]
        exact iff_of_false (by simp) (by tauto)
      · rw [if_neg h1, if_neg h2]
        exact iff_of_true rfl (by tauto)

/-! ## C5 — grid clustering lemmas -/

theorem clusterChain_ne_nil (tol : ℚ) (xs : List ℚ) (last : ℚ)
    (cur : List ℚ) : clusterChain tol xs last cur ≠ [] := by
  induction xs generalizing last cur with
  | nil => simp [clusterChain]
  | cons x rest ih =>
    rw [clusterChain]
    split
    · exact ih x (x :: cur)
    · simp

theorem clusterChain_clusters (tol : ℚ) (xs : List ℚ) (last : ℚ)
    (cur : List ℚ) (hcur : cur ≠ []) :
    ∀ cl ∈ clusterChain tol xs last cur,
      cl ≠ [] ∧ ∀ x ∈ cl, x ∈ cur ∨ x ∈ xs := by
  induction xs generalizing last cur with
  | nil =>
    intro cl hcl
    simp only [clusterChain, List.mem_singleton] at hcl
    subst hcl
    refine ⟨by simpa using hcur, ?_⟩
    intro x hx
    exact Or.inl (List.mem_reverse.mp hx)
  | cons y rest ih =>
    intro cl hcl
    rw [clusterChain] at hcl
    revert hcl
    split <;> intro hcl
    · obtain ⟨hne, hmem⟩ := ih y (y :: cur) (by simp) cl hcl
      refine ⟨hne, ?_⟩
      intro x hx
      rcases hmem x hx with hc | hr
      · rcases List.mem_cons.mp hc with rfl | hc'
        · exact Or.inr (by simp)
        · exact Or.inl hc'
      · exact Or.inr (by simp [hr])
    · rcases List.mem_cons.mp hcl with rfl | hcl'
      · refine ⟨by simpa using hcur, ?_⟩
        intro x hx
        exact Or.inl (List.mem_reverse.mp hx)
      · obtain ⟨hne, hmem⟩ := ih y [y] (by simp) cl hcl'
        refine ⟨hne, ?_⟩
        intro x hx
        rcases hmem x hx with hc | hr
        · simp only [List.mem_singleton] at hc
          exact Or.inr (by simp [hc])
        · exact Or.inr (by simp [hr])

theorem mean_bounds {c : List ℚ} {lo hi : ℚ} (hne : c ≠ [])
    (h : ∀ x ∈ c, lo ≤ x ∧ x ≤ hi) :
    lo ≤ c.sum / (c.length : ℚ) ∧ c.sum / (c.length : ℚ) ≤ hi := by
  have hlen : (0 : ℚ) < (c.length : ℚ) := by
    have : 0 < c.length := List.length_pos.mpr hne
    exact_mod_cast this
  have hlow : (c.length : ℚ) * lo ≤ c.sum := by
    have := List.card_nsmul_le_sum c lo (fun x hx => (h x hx).1)
    simpa [nsmul_eq_mul] using this
  have hhigh : c.sum ≤ (c.length : ℚ) * hi := by
    have := List.sum_le_card_nsmul c hi (fun x hx => (h x hx).2)
    simpa [nsmul_eq_mul] using this
  constructor
  · rw [le_div_iff₀ hlen]
    linarith
  · rw [div_le_iff₀ hlen]
    linarith

theorem clusterPositions_bounds {vals : List ℚ} (tol : ℚ) {lo hi : ℚ}
    (h : ∀ x ∈ vals, lo ≤ x ∧ x ≤ hi) :
    ∀ c ∈ clusterPositions vals tol, lo ≤ c ∧ c ≤ hi := by
  intro c hc
  unfold clusterPositions at hc
  revert hc
  split
  · intro hc
    simp at hc
  · rename_i v vs hs
    intro hc
    obtain ⟨cl, hcl, rfl⟩ := List.mem_map.mp hc
    have hmem : ∀ x ∈ v :: vs, lo ≤ x ∧ x ≤ hi := by
      intro x hx
      apply h
      have := (List.perm_insertionSort (· ≤ ·) vals).mem_iff (a := x)
      rw [hs] at this
      exact this.mp hx
    obtain ⟨hne, hsub⟩ := clusterChain_clusters tol vs v [v] (by simp) cl hcl
    apply mean_bounds hne
    intro x hx
    rcases hsub x hx with hx' | hx'
    · simp only [List.mem_singleton] at hx'
      exact hx' ▸ hmem v (by simp)
    · exact hmem x (by simp [hx'])

theorem clusterPositions_ne_nil {vals : List ℚ} (tol : ℚ)
    (h : vals ≠ []) : clusterPositions vals tol ≠ [] := by
  unfold clusterPositions
  split
  · rename_i hs
    have := (List.perm_insertionSort (· ≤ ·) vals).length_eq
    rw [hs] at this
    simp only [List.length_nil] at this
    exact absurd (List.length_eq_zero.mp this.symm) h
  · rename_i v vs _
    simp only [ne_eq, List.map_eq_nil_iff]
    exact clusterChain_ne_nil tol vs v [v]

theorem gridBounds_length (lo hi : ℚ) {centers : List ℚ}
    (h : centers ≠ []) :
    (gridBounds lo hi centers).length = centers.length + 1 := by
  cases centers with
  | nil => exact absurd rfl h
  | cons c cs =>
    simp [gridBounds, List.length_zipWith]

theorem gridBounds_chain (hi : ℚ) (centers : List ℚ)
    (hs : List.Sorted (· ≤ ·) centers) :
    ∀ lo : ℚ, (∀ c ∈ centers, lo ≤ c ∧ c ≤ hi) → centers ≠ [] →
      List.Chain' (· ≤ ·) (gridBounds lo hi centers) := by
  induction centers with
  | nil => intro lo _ hne; exact absurd rfl hne
  | cons c1 cs ih =>
    intro lo hb _
    cases cs with
    | nil =>
      have h1 := hb c1 (by simp)
      show List.Chain' (· ≤ ·) [lo, hi]
      rw [List.chain'_pair]
      linarith
    | cons c2 rest =>
      have h1 := hb c1 (by simp)
      have h2 := hb c2 (by simp)
      have h12 : c1 ≤ c2 := (List.sorted_cons.mp hs).1 c2 (by simp)
      show List.Chain' (· ≤ ·)
        (lo :: gridBounds ((c1 + c2) / 2) hi (c2 :: rest))
      rw [show (lo :: gridBounds ((c1 + c2) / 2) hi (c2 :: rest)) =
        lo :: ((c1 + c2) / 2) ::
          (List.zipWith (fun a b => (a + b) / 2) (c2 :: rest) rest ++ [hi])
        from rfl]
      rw [List.chain'_cons]
      constructor
      · linarith
      · refine ih (List.sorted_cons.mp hs).2 ((c1 + c2) / 2) ?_ (by simp)
        intro c hc
        rcases List.mem_cons.mp hc with rfl | hc'
        · exact ⟨by linarith, h2.2⟩
        · have hcc := hb c (by simp [hc'])
          have h2c : c2 ≤ c :=
            (List.sorted_cons.mp (List.sorted_cons.mp hs).2).1 c hc'
          exact ⟨by linarith, hcc.2⟩

theorem gridBounds_getLast (lo hi : ℚ) (centers : List ℚ) :
    (gridBounds lo hi centers).getLast? = some hi := by
  show (lo :: (List.zipWith (fun a b => (a + b) / 2) centers centers.tail ++
    [hi])).getLast? = some hi
  rw [← List.cons_append]
  exact List.getLast?_concat _

theorem nearestIndex_lt (x : ℚ) {centers : List ℚ} (h : centers ≠ []) :
    nearestIndex x centers < centers.length := by
  cases centers with
  | nil => exact absurd rfl h
  | cons c cs =>
    show (((cs.enumFrom 1).foldl
      (fun best p => if |x - p.2| < best.2 then (p.1, |x - p.2|) else best)
      (0, |x - c|)) : Nat × ℚ).1 < cs.length + 1
    refine List.foldlRecOn (motive := fun best : Nat × ℚ =>
      best.1 < cs.length + 1) _ _ _ (by simp) ?_
    intro best hbest p hp
    dsimp only
    split
    · have := (List.mem_enumFrom hp).2.1
      omega
    · exact hbest

/-- C5 (invariants).
For every non-empty anchor set on a page (anchor centers lying inside the
page rectangle), the grid built by `extract_items_from_page` has, per
axis, exactly one more boundary than cluster centers; the boundaries are
non-decreasing, start at the page edge and end at the opposite page edge
(partitioning the page without gaps or overlaps); and every anchor is
assigned exactly one `(row, col)` cell by nearest cluster center. -/
theorem claim_C5_grid_partition (anchors : List CodeAnchor)
    (pX0 pY0 pX1 pY1 : ℚ) (hne : anchors ≠ [])
    (hx : ∀ a ∈ anchors, pX0 ≤ xCenter a.bbox ∧ xCenter a.bbox ≤ pX1)
    (hy : ∀ a ∈ anchors, pY0 ≤ yCenter a.bbox ∧ yCenter a.bbox ≤ pY1) :
    (buildPageGrid anchors pX0 pY0 pX1 pY1).xBounds.length =
      (buildPageGrid anchors pX0 pY0 pX1 pY1).colCenters.length + 1 ∧
    (buildPageGrid anchors pX0 pY0 pX1 pY1).yBounds.length =
      (buildPageGrid anchors pX0 pY0 pX1 pY1).rowCenters.length + 1 ∧
    List.Chain' (· ≤ ·) (buildPageGrid anchors pX0 pY0 pX1 pY1).xBounds ∧
    List.Chain' (· ≤ ·) (buildPageGrid anchors pX0 pY0 pX1 pY1).yBounds ∧
    (buildPageGrid anchors pX0 pY0 pX1 pY1).xBounds.head? = some pX0 ∧
    (buildPageGrid anchors pX0 pY0 pX1 pY1).xBounds.getLast? = some pX1 ∧
    (buildPageGrid anchors pX0 pY0 pX1 pY1).yBounds.head? = some pY0 ∧
    (buildPageGrid anchors pX0 pY0 pX1 pY1).yBounds.getLast? = some pY1 ∧
    (∀ a ∈ anchors, ∃! rc : Nat × Nat,
      anchorCell (buildPageGrid anchors pX0 pY0 pX1 pY1) a = rc ∧
      rc.1 < (buildPageGrid anchors pX0 pY0 pX1 pY1).rowCenters.length ∧
      rc.2 < (buildPageGrid anchors pX0 pY0 pX1 pY1).colCenters.length) := by
  have hxs : (anchors.map (fun a => xCenter a.bbox)) ≠ [] := by
    simpa using hne
  have hys : (anchors.map (fun a => yCenter a.bbox)) ≠ [] := by
    simpa using hne
  have hxb : ∀ x ∈ anchors.map (fun a => xCenter a.bbox),
      pX0 ≤ x ∧ x ≤ pX1 := by
    intro x hxm
    obtain ⟨a, ha, rfl⟩ := List.mem_map.mp hxm
    exact hx a ha
  have hyb : ∀ y ∈ anchors.map (fun a => yCenter a.bbox),
      pY0 ≤ y ∧ y ≤ pY1 := by
    intro y hym
    obtain ⟨a, ha, rfl⟩ := List.mem_map.mp hym
    exact hy a ha
  have hcolne : (buildPageGrid anchors pX0 pY0 pX1 pY1).colCenters ≠ [] := by
    show ((clusterPositions (anchors.map (fun a => xCenter a.bbox))
      60).insertionSort (· ≤ ·)) ≠ []
    intro hcontra
    have := (List.perm_insertionSort (· ≤ ·)
      (clusterPositions (anchors.map (fun a => xCenter a.bbox)) 60)).length_eq
    rw [hcontra] at this
    exact clusterPositions_ne_nil 60 hxs
      (List.length_eq_zero.mp this.symm)
  have hrowne : (buildPageGrid anchors pX0 pY0 pX1 pY1).rowCenters ≠ [] := by
    show ((clusterPositions (anchors.map (fun a => yCenter a.bbox))
      25).insertionSort (· ≤ ·)) ≠ []
    intro hcontra
    have := (List.perm_insertionSort (· ≤ ·)
      (clusterPositions (anchors.map (fun a => yCenter a.bbox)) 25)).length_eq
    rw [hcontra] at this
    exact clusterPositions_ne_nil 25 hys
      (List.length_eq_zero.mp this.symm)
  have hcolb : ∀ c ∈ (buildPageGrid anchors pX0 pY0 pX1 pY1).colCenters,
      pX0 ≤ c ∧ c ≤ pX1 := by
    intro c hc
    apply clusterPositions_bounds 60 hxb
    exact (List.perm_insertionSort (· ≤ ·) _).mem_iff.mp hc
  have hrowb : ∀ c ∈ (buildPageGrid anchors pX0 pY0 pX1 pY1).rowCenters,
      pY0 ≤ c ∧ c ≤ pY1 := by
    intro c hc
    apply clusterPositions_bounds 25 hyb
    exact (List.perm_insertionSort (· ≤ ·) _).mem_iff.mp hc
  have hcols : List.Sorted (· ≤ ·)
      (buildPageGrid anchors pX0 pY0 pX1 pY1).colCenters :=
    List.sorted_insertionSort _ _
  have hrows : List.Sorted (· ≤ ·)
      (buildPageGrid anchors pX0 pY0 pX1 pY1).rowCenters :=
    List.sorted_insertionSort _ _
  refine ⟨gridBounds_length pX0 pX1 hcolne, gridBounds_length pY0 pY1 hrowne,
    gridBounds_chain pX1 _ hcols pX0 hcolb hcolne,
    gridBounds_chain pY1 _ hrows pY0 hrowb hrowne,
    rfl, gridBounds_getLast _ _ _, rfl, gridBounds_getLast _ _ _, ?_⟩
  intro a _
  refine ⟨anchorCell (buildPageGrid anchors pX0 pY0 pX1 pY1) a,
    ⟨rfl, nearestIndex_lt _ hrowne, nearestIndex_lt _ hcolne⟩, ?_⟩
  intro rc hrc
  exact hrc.1.symm

/-- C5 witness: the theorem applied to a concrete two-anchor page. -/
theorem claim_C5_witness :
    (buildPageGrid
      [⟨['1'], ⟨10, 10, 20, 20⟩⟩, ⟨['2'], ⟨210, 10, 220, 20⟩⟩]
      0 0 400 600).xBounds.length =
    (buildPageGrid
      [⟨['1'], ⟨10, 10, 20, 20⟩⟩, ⟨['2'], ⟨210, 10, 220, 20⟩⟩]
      0 0 400 600).colCenters.length + 1 := by
  refine (claim_C5_grid_partition
    [⟨['1'], ⟨10, 10, 20, 20⟩⟩, ⟨['2'], ⟨210, 10, 220, 20⟩⟩]
    0 0 400 600 (by simp) ?_ ?_).1
  · intro a ha
    rcases List.mem_cons.mp ha with rfl | ha'
    · norm_num [xCenter]
    · simp only [List.mem_singleton] at ha'
      subst ha'
      norm_num [xCenter]
  · intro a ha
    rcases List.mem_cons.mp ha with rfl | ha'
    · norm_num [yCenter]
    · simp only [List.mem_singleton] at ha'
      subst ha'
      norm_num [yCenter]

/-! ## C8 — author-extraction fallback -/

/-- C8 counterexample (functional_correctness).
The claim states that the fallback considers only spans lying above the
anchor's vertical center and breaks font-size ties in favour of the span
higher on the page. The code sorts by `(-size, -y0)`, so among two
author-like spans of equal font size it returns the one lower on the page
(`"CLAR"` at `y0 = 20` instead of `"BUCK"` at `y0 = 0`); and it admits a
span whose bottom edge is up to 2 units below the vertical center (the
span `"DEJE"` with bottom edge 106 against center 105 is returned instead
of the empty string). -/
theorem claim_C8_counterexample :
    extractItemAuthor
      [⟨"BUCK".toList, 0, 0, 40, 10, 10⟩, ⟨"CLAR".toList, 0, 20, 40, 30, 10⟩]
      ⟨0, 100, 50, 110⟩ = "CLAR".toList ∧
    "CLAR".toList ≠ "BUCK".toList ∧
    extractItemAuthor [⟨"DEJE".toList, 200, 96, 240, 106, 10⟩]
      ⟨0, 100, 50, 110⟩ = "DEJE".toList ∧
    yCenter ⟨0, 100, 50, 110⟩ < 106 ∧
    "DEJE".toList ≠ [] := by
  refine ⟨?_, by decide, ?_, by norm_num [yCenter], by decide⟩
  · have hnear : nearCandidates
        [⟨"BUCK".toList, 0, 0, 40, 10, 10⟩,
         ⟨"CLAR".toList, 0, 20, 40, 30, 10⟩] ⟨0, 100, 50, 110⟩ = [] := by
      norm_num [nearCandidates, List.filterMap_cons]
    rw [extractItemAuthor, hnear]
    norm_num [yCenter, List.filter, List.insertionSort, List.orderedInsert,
      fallbackLE]
    decide
  · have hnear : nearCandidates [⟨"DEJE".toList, 200, 96, 240, 106, 10⟩]
        ⟨0, 100, 50, 110⟩ = [] := by
      norm_num [nearCandidates, List.filterMap_cons, xOverlap, Span.box]
    rw [extractItemAuthor, hnear]
    norm_num [yCenter, List.filter, List.insertionSort, List.orderedInsert,
      fallbackLE]
    decide

/-- C8 amended (functional_correctness).
When the windowed search finds no candidate, the fallback considers the
spans whose bottom edge is at most 2 units below the anchor's vertical
center and that pass the noise filter, and returns (stripped) the text of
a candidate with the largest font size, breaking font-size ties in favour
of the span lower on the page (larger top-edge `y`); if no such span
exists it returns the empty string. -/
theorem claim_C8_amended_fallback (cellSpans : List Span) (codeBox : Box)
    (hnear : nearCandidates cellSpans codeBox = []) :
    (cellSpans.filter (fun s => decide (s.y1 ≤ yCenter codeBox + 2) &&
        looksLikeAuthor (stripWS s.text)) = [] →
      extractItemAuthor cellSpans codeBox = []) ∧
    (∀ (c : Span) (rest : List Span),
      (cellSpans.filter (fun s => decide (s.y1 ≤ yCenter codeBox + 2) &&
        looksLikeAuthor (stripWS s.text))).insertionSort fallbackLE =
          c :: rest →
      extractItemAuthor cellSpans codeBox = stripWS c.text ∧
      c ∈ cellSpans.filter (fun s => decide (s.y1 ≤ yCenter codeBox + 2) &&
        looksLikeAuthor (stripWS s.text)) ∧
      ∀ s ∈ cellSpans.filter (fun s => decide (s.y1 ≤ yCenter codeBox + 2) &&
        looksLikeAuthor (stripWS s.text)), fallbackLE c s) := by
  constructor
  · intro hcands
    rw [extractItemAuthor, hnear]
    simp only [hcands, List.insertionSort]
  · intro c rest hsort
    rw [extractItemAuthor, hnear]
    simp only [hsort]
    refine ⟨by trivial, ?_, ?_⟩
    · have : c ∈ c :: rest := by simp
      rw [← hsort] at this
      exact (List.perm_insertionSort fallbackLE _).mem_iff.mp this
    · intro s hs
      have hsmem : s ∈ c :: rest := by
        rw [← hsort]
        exact ((List.perm_insertionSort fallbackLE _).mem_iff).mpr hs
      have hsorted : List.Sorted fallbackLE (c :: rest) := by
        rw [← hsort]
        exact List.sorted_insertionSort fallbackLE _
      rcases List.mem_cons.mp hsmem with rfl | hs'
      · exact Or.inr ⟨rfl, le_refl _⟩
      · exact (List.sorted_cons.mp hsorted).1 s hs'

/-- C8 amended witness: the fallback at a concrete cell returns the
largest-font candidate. -/
theorem claim_C8_amended_witness :
    nearCandidates
      [⟨"BUCK".toList, 0, 0, 40, 10, 8⟩, ⟨"CLAR".toList, 0, 20, 40, 30, 12⟩]
      ⟨0, 100, 50, 110⟩ = [] ∧
    extractItemAuthor
      [⟨"BUCK".toList, 0, 0, 40, 10, 8⟩, ⟨"CLAR".toList, 0, 20, 40, 30, 12⟩]
      ⟨0, 100, 50, 110⟩ = stripWS "CLAR".toList := by
  have hnear : nearCandidates
      [⟨"BUCK".toList, 0, 0, 40, 10, 8⟩, ⟨"CLAR".toList, 0, 20, 40, 30, 12⟩]
      ⟨0, 100, 50, 110⟩ = [] := by
    norm_num [nearCandidates, List.filterMap_cons]
  have hsort : (([⟨"BUCK".toList, 0, 0, 40, 10, 8⟩,
      ⟨"CLAR".toList, 0, 20, 40, 30, 12⟩] : List Span).filter
        (fun s => decide (s.y1 ≤ yCenter ⟨0, 100, 50, 110⟩ + 2) &&
          looksLikeAuthor (stripWS s.text))).insertionSort fallbackLE =
      [⟨"CLAR".toList, 0, 20, 40, 30, 12⟩, ⟨"BUCK".toList, 0, 0, 40, 10, 8⟩]
      := by
    norm_num [yCenter, List.filter, List.insertionSort, List.orderedInsert,
      fallbackLE]
  exact ⟨hnear, ((claim_C8_amended_fallback _ _ hnear).2
    ⟨"CLAR".toList, 0, 20, 40, 30, 12⟩
    [⟨"BUCK".toList, 0, 0, 40, 10, 8⟩] hsort).1⟩

/-! ## C4 — anchor reconstruction lemmas -/

theorem codeMatchesF_sound (l : List Char) :
    ∀ (fuel i0 : Nat), ∀ i ∈ codeMatchesF l fuel i0,
      isCodeAt l i = true ∧ i + 9 ≤ l.length := by
  intro fuel
  induction fuel with
  | zero => intro i0 i hi; simp [codeMatchesF] at hi
  | succ n ih =>
    intro i0 i hi
    rw [codeMatchesF] at hi
    by_cases hlen : i0 + 9 ≤ l.length
    · rw [if_pos hlen] at hi
      by_cases hcode : isCodeAt l i0
      · rw [if_pos hcode] at hi
        rcases List.mem_cons.mp hi with rfl | hi'
        · exact ⟨hcode, hlen⟩
        · exact ih _ i hi'
      · rw [if_neg hcode] at hi
        exact ih _ i hi
    · rw [if_neg hlen] at hi
      simp at hi

theorem codeMatches_sound (l : List Char) :
    ∀ i ∈ codeMatches l, isCodeAt l i = true ∧ i + 9 ≤ l.length :=
  fun i hi => codeMatchesF_sound l (l.length + 1) 0 i hi

theorem hitBoxes_eq_touchedBoxes (ms me : Nat) :
    ∀ (cmap : List (Nat × Nat × Box)),
      (∀ t ∈ cmap, t.1 ≤ t.2.1) →
      cmap.Pairwise (fun t u => t.2.1 ≤ u.1) →
      hitBoxes cmap ms me = touchedBoxes cmap ms me := by
  intro cmap
  induction cmap with
  | nil => intro _ _; rfl
  | cons t rest ih =>
    intro hle hpw
    obtain ⟨t1, t2, bb⟩ := t
    rw [hitBoxes]
    by_cases h1 : t2 ≤ ms
    · rw [if_pos h1]
      have : touchedBoxes ((t1, t2, bb) :: rest) ms me =
          touchedBoxes rest ms me := by
        unfold touchedBoxes
        rw [List.filter_cons_of_neg]
        simp only [Bool.and_eq_true, decide_eq_true_eq, not_and]
        intro hms
        omega
      rw [this]
      exact ih (fun u hu => hle u (by simp [hu]))
        (List.pairwise_cons.mp hpw).2
    · rw [if_neg h1]
      by_cases h2 : me ≤ t1
      · rw [if_pos h2]
        unfold touchedBoxes
        rw [List.filter_cons_of_neg, List.filter_eq_nil_iff.mpr]
        · rfl
        · intro u hu
          have h3 : t2 ≤ u.1 := (List.pairwise_cons.mp hpw).1 u hu
          have h4 : t1 ≤ t2 := hle (t1, t2, bb) (by simp)
          simp only [Bool.and_eq_true, decide_eq_true_eq, not_and]
          intro _
          simp only [not_lt]
          omega
        · simp only [Bool.and_eq_true, decide_eq_true_eq, not_and]
          intro _
          omega
      · rw [if_neg h2]
        have : touchedBoxes ((t1, t2, bb) :: rest) ms me =
            bb :: touchedBoxes rest ms me := by
          unfold touchedBoxes
          rw [List.filter_cons_of_pos]
          · rfl
          · simp only [Bool.and_eq_true, decide_eq_true_eq]
            omega
        rw [this, ih (fun u hu => hle u (by simp [hu]))
          (List.pairwise_cons.mp hpw).2]

theorem touchedBoxes_ne_nil {cmap : List (Nat × Nat × Box)} {ms me : Nat}
    (h : ∃ t ∈ cmap, t.1 ≤ ms ∧ ms < t.2.1) (hlt : ms < me) :
    touchedBoxes cmap ms me ≠ [] := by
  obtain ⟨t, ht, h1, h2⟩ := h
  unfold touchedBoxes
  simp only [ne_eq, List.map_eq_nil_iff, List.filter_eq_nil_iff, not_forall]
  refine ⟨t, ht, ?_⟩
  simp only [Bool.and_eq_true, decide_eq_true_eq, not_not]
  omega

theorem filterMap_eq_map_of_some {α β : Type} (l : List α)
    (f : α → Option β) (g : α → β) (h : ∀ i ∈ l, f i = some (g i)) :
    l.filterMap f = l.map g := by
  induction l with
  | nil => rfl
  | cons x xs ih =>
    rw [List.filterMap_cons, h x (by simp), List.map_cons]
    rw [ih (fun i hi => h i (by simp [hi]))]

theorem buildLine_inv (ws : List PWord) :
    (buildLine ws).cursor = (buildLine ws).pieces.length ∧
    (∀ t ∈ (buildLine ws).charMap,
      t.1 ≤ t.2.1 ∧ t.2.1 ≤ (buildLine ws).cursor) ∧
    (∀ pos, pos < (buildLine ws).pieces.length →
      charAt (buildLine ws).pieces pos ≠ ' ' →
      ∃ t ∈ (buildLine ws).charMap, t.1 ≤ pos ∧ pos < t.2.1) ∧
    (buildLine ws).charMap.Pairwise (fun t u => t.2.1 ≤ u.1) := by
  unfold buildLine
  refine List.foldlRecOn (motive := fun st : LineState =>
    st.cursor = st.pieces.length ∧
    (∀ t ∈ st.charMap, t.1 ≤ t.2.1 ∧ t.2.1 ≤ st.cursor) ∧
    (∀ pos, pos < st.pieces.length → charAt st.pieces pos ≠ ' ' →
      ∃ t ∈ st.charMap, t.1 ≤ pos ∧ pos < t.2.1) ∧
    st.charMap.Pairwise (fun t u => t.2.1 ≤ u.1)) _ _ _ ?_ ?_
  · refine ⟨rfl, by simp, ?_, by simp⟩
    intro pos hpos
    simp at hpos
  · intro st hst w _
    obtain ⟨h1, h2, h3, h4⟩ := hst
    have main : ∀ gl : List Char, (∀ c ∈ gl, c = ' ') →
        (fun st : LineState =>
          st.cursor = st.pieces.length ∧
          (∀ t ∈ st.charMap, t.1 ≤ t.2.1 ∧ t.2.1 ≤ st.cursor) ∧
          (∀ pos, pos < st.pieces.length → charAt st.pieces pos ≠ ' ' →
            ∃ t ∈ st.charMap, t.1 ≤ pos ∧ pos < t.2.1) ∧
          st.charMap.Pairwise (fun t u => t.2.1 ≤ u.1))
        { pieces := st.pieces ++ (gl ++ normText w.text)
          charMap := st.charMap ++ [(st.cursor + gl.length,
            st.cursor + gl.length + (normText w.text).length, w.box)]
          cursor := st.cursor + gl.length + (normText w.text).length
          prevX1 := some w.x1 } := by
      intro gl hgl
      refine ⟨by simp only [List.length_append, h1]; omega, ?_, ?_, ?_⟩
      · intro t ht
        rcases List.mem_append.mp ht with ht' | ht'
        · obtain ⟨ha, hb⟩ := h2 t ht'
          refine ⟨ha, ?_⟩
          dsimp only
          omega
        · simp only [List.mem_singleton] at ht'
          subst ht'
          dsimp only
          exact ⟨by omega, by omega⟩
      · intro pos hpos hchar
        simp only [List.length_append] at hpos
        by_cases hp1 : pos < st.pieces.length
        · obtain ⟨t, ht, hta, htb⟩ := h3 pos hp1 (by
            rwa [charAt, List.getD_append _ _ _ _ hp1] at hchar)
          exact ⟨t, by simp [ht], hta, htb⟩
        · by_cases hp2 : pos < st.pieces.length + gl.length
          · exfalso
            apply hchar
            rw [charAt, List.getD_eq_getElem?_getD, List.getElem?_append,
              if_neg (by omega)]
            rw [List.getElem?_append, if_pos (by omega)]
            have hlt : pos - st.pieces.length < gl.length := by omega
            rw [List.getElem?_eq_getElem hlt]
            simp only [Option.getD_some]
            exact hgl _ (List.getElem_mem hlt)
          · refine ⟨(st.cursor + gl.length,
              st.cursor + gl.length + (normText w.text).length, w.box),
              by simp, ?_, ?_⟩
            · dsimp only
              omega
            · dsimp only
              omega
      · rw [List.pairwise_append]
        refine ⟨h4, by simp, ?_⟩
        intro a ha b hb
        simp only [List.mem_singleton] at hb
        subst hb
        have hc := (h2 a ha).2
        dsimp only
        omega
    rw [buildLineStep]
    cases hg : (match st.prevX1 with
      | some px => decide (px + 3 / 2 < w.x0)
      | none => false) with
    | true =>
      simpa using main [' '] (by simp)
    | false =>
      simpa using main [] (by simp)

theorem dedupAnchors_keys_nodup (as : List CodeAnchor) :
    ((dedupAnchors as).map anchorKey).Nodup := by
  unfold dedupAnchors
  have h : ((as.foldl upsertAnchor []).map (fun p => p.1)).Nodup ∧
      ∀ p ∈ as.foldl upsertAnchor [], p.1 = anchorKey p.2 := by
    refine List.foldlRecOn (motive := fun acc :
        List ((List Char × ℚ × ℚ × ℚ × ℚ) × CodeAnchor) =>
      (acc.map (fun p => p.1)).Nodup ∧ ∀ p ∈ acc, p.1 = anchorKey p.2)
      as upsertAnchor [] ?_ ?_
    · exact ⟨List.nodup_nil, fun p hp => absurd hp (List.not_mem_nil p)⟩
    intro acc hacc a _
    unfold upsertAnchor
    split
    · constructor
      · have hkeys : (acc.map
            (fun p => if p.1 = anchorKey a then (p.1, a) else p)).map
              (fun p => p.1) = acc.map (fun p => p.1) := by
          rw [List.map_map]
          apply List.map_congr_left
          intro p _
          by_cases hp : p.1 = anchorKey a <;> simp [hp]
        rw [hkeys]
        exact hacc.1
      · intro p hp
        obtain ⟨q, hq, hpq⟩ := List.mem_map.mp hp
        by_cases hqk : q.1 = anchorKey a
        · rw [if_pos hqk] at hpq
          subst hpq
          simpa using hqk
        · rw [if_neg hqk] at hpq
          subst hpq
          exact hacc.2 q hq
    · rename_i hnot
      constructor
      · rw [List.map_append]
        rw [List.nodup_append]
        refine ⟨hacc.1, by simp, ?_⟩
        intro k hk
        simp only [List.map_cons, List.map_nil, List.mem_singleton]
        intro hkk
        subst hkk
        obtain ⟨p, hp, hpk⟩ := List.mem_map.mp hk
        exact hnot (List.any_eq_true.mpr ⟨p, hp, by simp [hpk]⟩)
      · intro p hp
        rcases List.mem_append.mp hp with hp' | hp'
        · exact hacc.2 p hp'
        · simp only [List.mem_singleton] at hp'
          subst hp'
          rfl
  have h2 : ((as.foldl upsertAnchor []).map (fun p => p.2)).map anchorKey =
      (as.foldl upsertAnchor []).map (fun p => p.1) := by
    rw [List.map_map]
    apply List.map_congr_left
    intro p hp
    exact (h.2 p hp).symm
  rw [h2]
  exact h.1

theorem foldl_upsert_append (as : List CodeAnchor) :
    ∀ acc : List ((List Char × ℚ × ℚ × ℚ × ℚ) × CodeAnchor),
      ((acc.map (fun p => p.1)) ++ as.map anchorKey).Nodup →
      as.foldl upsertAnchor acc = acc ++ as.map (fun a => (anchorKey a, a)) := by
  induction as with
  | nil => intro acc _; simp
  | cons a rest ih =>
    intro acc hnd
    rw [List.foldl_cons]
    have hkey : ¬(acc.any (fun p => p.1 = anchorKey a) = true) := by
      intro hcon
      obtain ⟨p, hp, hpk⟩ := List.any_eq_true.mp hcon
      simp only [decide_eq_true_eq] at hpk
      have hmem1 : anchorKey a ∈ acc.map (fun p => p.1) :=
        List.mem_map.mpr ⟨p, hp, hpk⟩
      have hmem2 : anchorKey a ∈ (a :: rest).map anchorKey := by simp
      exact (List.disjoint_of_nodup_append hnd hmem1 hmem2).elim
    rw [show upsertAnchor acc a = acc ++ [(anchorKey a, a)] by
      unfold upsertAnchor; rw [if_neg hkey]]
    rw [ih (acc ++ [(anchorKey a, a)]) (by
      rw [List.map_append]
      simp only [List.map_cons, List.map_nil]
      rw [List.append_assoc, List.singleton_append]
      simpa using hnd)]
    rw [List.append_assoc, List.singleton_append]
    rfl

theorem dedupAnchors_eq_self {as : List CodeAnchor}
    (h : (as.map anchorKey).Nodup) : dedupAnchors as = as := by
  unfold dedupAnchors
  rw [foldl_upsert_append as [] (by simpa using h)]
  rw [List.nil_append, List.map_map]
  have hcomp : ((fun p : (List Char × ℚ × ℚ × ℚ × ℚ) × CodeAnchor => p.2) ∘
      fun a : CodeAnchor => (anchorKey a, a)) = id := funext fun a => rfl
  rw [hcomp, List.map_id]

/-- C4 amended (functional_correctness).
For a physical line of page words, provided the final normalisation
deletes no character of the gap-aware concatenation (`normText` is the
identity on the joined text — no whitespace adjacent to a hyphen
straddles a word boundary), the extractor returns exactly one anchor per
occurrence of the code pattern, in order, whose code is the 9-character
match and whose bbox is the componentwise union of the bounding boxes of
the words the match's character span touches; and page-level anchors are
deduplicated by `(code, bbox rounded to 0.1)`: the dedup keys of the
output are unique, and when all keys are distinct the dedup keeps every
anchor unchanged. Without the proviso, the match offsets refer to the
text before normalisation and the bbox can omit trailing contributing
words (see the counterexample). -/
theorem claim_C4_amended_anchor_reconstruction (lineWords : List PWord)
    (hA : normText (buildLine (lineWords.insertionSort xLE)).pieces =
      (buildLine (lineWords.insertionSort xLE)).pieces) :
    (anchorsOfLine lineWords =
      (codeMatches (buildLine (lineWords.insertionSort xLE)).pieces).map
        (fun i =>
          { code := (((buildLine (lineWords.insertionSort xLE)).pieces).drop
              i).take 9
            bbox := touchedUnion
              (buildLine (lineWords.insertionSort xLE)).charMap i (i + 9) })) ∧
    (∀ i ∈ codeMatches (buildLine (lineWords.insertionSort xLE)).pieces,
      touchedBoxes (buildLine (lineWords.insertionSort xLE)).charMap i
        (i + 9) ≠ []) ∧
    (∀ as : List CodeAnchor, ((dedupAnchors as).map anchorKey).Nodup) ∧
    (∀ as : List CodeAnchor, (as.map anchorKey).Nodup →
      dedupAnchors as = as) := by
  obtain ⟨h1, h2, h3, h4⟩ := buildLine_inv (lineWords.insertionSort xLE)
  have hne : ∀ i ∈ codeMatches
      (buildLine (lineWords.insertionSort xLE)).pieces,
      touchedBoxes (buildLine (lineWords.insertionSort xLE)).charMap i
        (i + 9) ≠ [] := by
    intro i hi
    obtain ⟨hcode, hlen⟩ :=
      codeMatches_sound (buildLine (lineWords.insertionSort xLE)).pieces i hi
    have hdigit :
        charAt (buildLine (lineWords.insertionSort xLE)).pieces i ≠ ' ' := by
      simp only [isCodeAt, Bool.and_eq_true] at hcode
      have hd := hcode.1.1.1.1.1.1.1.1.1.2
      intro hsp
      rw [hsp] at hd
      exact absurd hd (by decide)
    obtain ⟨t, ht, hta, htb⟩ := h3 i (by omega) hdigit
    exact touchedBoxes_ne_nil ⟨t, ht, hta, htb⟩ (by omega)
  refine ⟨?_, hne, dedupAnchors_keys_nodup, fun as h => dedupAnchors_eq_self h⟩
  show (codeMatches (normText
      (buildLine (lineWords.insertionSort xLE)).pieces)).filterMap _ =
    _
  rw [hA]
  apply filterMap_eq_map_of_some
  intro i hi
  have heq : hitBoxes (buildLine (lineWords.insertionSort xLE)).charMap i
      (i + 9) = touchedBoxes
        (buildLine (lineWords.insertionSort xLE)).charMap i (i + 9) :=
    hitBoxes_eq_touchedBoxes i (i + 9) _ (fun t ht => (h2 t ht).1) h4
  rcases htc : touchedBoxes
      (buildLine (lineWords.insertionSort xLE)).charMap i (i + 9) with
    _ | ⟨b, bs⟩
  · exact absurd htc (hne i hi)
  · rw [heq, htc]
    unfold touchedUnion
    rw [htc]

/-- C4 counterexample (functional_correctness).
The line `"12-345" | "-" | "67"` (three words with visible gaps) joins to
`"12-345 - 67"` and normalises to `"12-345-67"`, which matches the code
pattern — but the match offsets `[0, 9)` are applied to the character map
of the pre-normalisation text, where the word `"67"` spans `[9, 11)`.
The `s >= me` break therefore drops it, and the returned bbox
`(0, 0, 75, 10)` omits the box `(85, 0, 100, 10)` of the word
contributing the final two characters of the code: it is not the
componentwise union `(0, 0, 100, 10)` of the three contributing words'
boxes, contradicting the claim "regardless of how the code text was split
across words". -/
theorem claim_C4_counterexample :
    anchorsOfLine [⟨0, 0, 60, 10, "12-345".toList⟩,
      ⟨70, 0, 75, 10, "-".toList⟩, ⟨85, 0, 100, 10, "67".toList⟩] =
      [⟨"12-345-67".toList, ⟨0, 0, 75, 10⟩⟩] ∧
    unionBoxes ⟨0, 0, 60, 10⟩ [⟨70, 0, 75, 10⟩, ⟨85, 0, 100, 10⟩] =
      ⟨0, 0, 100, 10⟩ ∧
    (⟨0, 0, 75, 10⟩ : Box) ≠ ⟨0, 0, 100, 10⟩ := by
  refine ⟨?_, by decide, by decide⟩
  have hsort : ([⟨0, 0, 60, 10, "12-345".toList⟩,
      ⟨70, 0, 75, 10, "-".toList⟩,
      ⟨85, 0, 100, 10, "67".toList⟩] : List PWord).insertionSort xLE =
      [⟨0, 0, 60, 10, "12-345".toList⟩, ⟨70, 0, 75, 10, "-".toList⟩,
       ⟨85, 0, 100, 10, "67".toList⟩] := by
    norm_num [List.insertionSort, List.orderedInsert, xLE]
  have hnorm1 : normText "12-345".toList = "12-345".toList := by decide
  have hnorm2 : normText "-".toList = "-".toList := by decide
  have hnorm3 : normText "67".toList = "67".toList := by decide
  have hbl : buildLine [⟨0, 0, 60, 10, "12-345".toList⟩,
      ⟨70, 0, 75, 10, "-".toList⟩, ⟨85, 0, 100, 10, "67".toList⟩] =
      { pieces := "12-345 - 67".toList
        charMap := [(0, 6, ⟨0, 0, 60, 10⟩), (7, 8, ⟨70, 0, 75, 10⟩),
          (9, 11, ⟨85, 0, 100, 10⟩)]
        cursor := 11, prevX1 := some 100 } := by
    rw [buildLine]
    rw [List.foldl_cons, List.foldl_cons, List.foldl_cons, List.foldl_nil]
    rw [buildLineStep, buildLineStep, buildLineStep]
    rw [hnorm1, hnorm2, hnorm3]
    norm_num
    decide
  rw [anchorsOfLine, hsort, hbl]
  decide

/-- C4 amended witness: a two-word line whose joined text is already
normalised — the theorem applies and yields the per-match anchors. -/
theorem claim_C4_amended_witness :
    normText (buildLine (([⟨0, 0, 20, 10, "ab".toList⟩,
      ⟨30, 0, 100, 10, "12-345-67".toList⟩] :
        List PWord).insertionSort xLE)).pieces =
      (buildLine (([⟨0, 0, 20, 10, "ab".toList⟩,
        ⟨30, 0, 100, 10, "12-345-67".toList⟩] :
          List PWord).insertionSort xLE)).pieces ∧
    anchorsOfLine [⟨0, 0, 20, 10, "ab".toList⟩,
      ⟨30, 0, 100, 10, "12-345-67".toList⟩] =
      (codeMatches (buildLine (([⟨0, 0, 20, 10, "ab".toList⟩,
        ⟨30, 0, 100, 10, "12-345-67".toList⟩] :
          List PWord).insertionSort xLE)).pieces).map
        (fun i =>
          { code := (((buildLine (([⟨0, 0, 20, 10, "ab".toList⟩,
              ⟨30, 0, 100, 10, "12-345-67".toList⟩] :
                List PWord).insertionSort xLE)).pieces).drop i).take 9
            bbox := touchedUnion
              (buildLine (([⟨0, 0, 20, 10, "ab".toList⟩,
                ⟨30, 0, 100, 10, "12-345-67".toList⟩] :
                  List PWord).insertionSort xLE)).charMap i (i + 9) }) := by
  have hsort : ([⟨0, 0, 20, 10, "ab".toList⟩,
      ⟨30, 0, 100, 10, "12-345-67".toList⟩] :
        List PWord).insertionSort xLE =
      [⟨0, 0, 20, 10, "ab".toList⟩,
       ⟨30, 0, 100, 10, "12-345-67".toList⟩] := by
    norm_num [List.insertionSort, List.orderedInsert, xLE]
  have hn1 : normText "ab".toList = "ab".toList := by decide
  have hn2 : normText "12-345-67".toList = "12-345-67".toList := by decide
  have hbl : buildLine [⟨0, 0, 20, 10, "ab".toList⟩,
      ⟨30, 0, 100, 10, "12-345-67".toList⟩] =
      { pieces := "ab 12-345-67".toList
        charMap := [(0, 2, ⟨0, 0, 20, 10⟩), (3, 12, ⟨30, 0, 100, 10⟩)]
        cursor := 12, prevX1 := some 100 } := by
    rw [buildLine]
    rw [List.foldl_cons, List.foldl_cons, List.foldl_nil]
    rw [buildLineStep, buildLineStep]
    rw [hn1, hn2]
    norm_num
    decide
  have hA : normText (buildLine (([⟨0, 0, 20, 10, "ab".toList⟩,
      ⟨30, 0, 100, 10, "12-345-67".toList⟩] :
        List PWord).insertionSort xLE)).pieces =
      (buildLine (([⟨0, 0, 20, 10, "ab".toList⟩,
        ⟨30, 0, 100, 10, "12-345-67".toList⟩] :
          List PWord).insertionSort xLE)).pieces := by
    rw [hsort, hbl]
    decide
  exact ⟨hA, (claim_C4_amended_anchor_reconstruction
    [⟨0, 0, 20, 10, "ab".toList⟩, ⟨30, 0, 100, 10, "12-345-67".toList⟩]
    hA).1⟩

end SmartCatalog
